import Mathlib

/-!
Verification development for the local prompt-cache simulation engine of the
new-api gateway (Go package `claude`, file `relay/channel/claude/` prompt-cache
module).  The Go source is shallowly embedded: machine `int` token arithmetic
becomes `Int` (no overflow is reachable for token counts), the external
tokenizer `service.CountTextToken` becomes explicit function parameters
(`tokC` for `estimateContentTokens ∘ json.Marshal`, `tokT` for
`estimateTokens` on plain text, both `Nat`-valued like a token counter),
SHA-256 becomes an abstract `digest : String → String` parameter, and the
Redis-backed fingerprint store becomes a `FingerprintStore` record whose
read functions model the caller-observable outcome of `RedisGet` plus
unmarshalling (an error, an empty value and an unmarshal failure are all
observed by every caller only as a miss, hence collapsed to `none`).
Side-effecting store writes are modelled as values describing the write that
would be issued (`none` when the write is skipped).
-/

namespace Claude

/-- Go constant `MaxBreakpoints = 4`. -/
def MaxBreakpoints : Nat := 4

/-- Go constant `TTL5m = 5 * time.Minute`, modelled in seconds. -/
def TTL5m : Nat := 5 * 60

/-- Go constant `TTL1h = 1 * time.Hour`, modelled in seconds. -/
def TTL1h : Nat := 60 * 60

/-- Go constants `MinCacheableTokens*` (all currently 5 in the source;
the TODO comment there names other intended values, the code ships 5). -/
def MinCacheableTokensDefault : Int := 5

def MinCacheableTokensOpus : Int := 5

def MinCacheableTokensSonnet : Int := 5

def MinCacheableTokensHaiku : Int := 5

/-- Go constant `PCacheKeyPrefix = "pcache"`. -/
def PCacheKeyTag : String := "pcache"

/-- Go constant `PCacheFuzzyPrefix = "pcache_fuzzy"`. -/
def PCacheFuzzyTag : String := "pcache_fuzzy"

/-- The result of parsing a `cache_control` JSON value into Go's
`struct { Type string; TTL string }`; absent JSON fields become `""`
exactly as Go's zero values do. -/
structure CacheControlField where
  type : String
  ttl : String
deriving DecidableEq, Repr

/-- A raw `cache_control` field (`json.RawMessage`).  `none` models an
empty raw value (`len == 0`), `some none` a non-empty value that fails
`json.Unmarshal`, `some (some cc)` a value parsing to `cc`. -/
abbrev RawCC := Option (Option CacheControlField)

/-- A content block (`dto.ClaudeMediaMessage`): `body` stands for its
`json.Marshal` bytes, `cacheControl` for its `cache_control` field. -/
structure ClaudeMediaMessage where
  body : String
  cacheControl : RawCC
deriving DecidableEq, Repr

/-- The `system` field of a request: either a plain string or a list of
content blocks (`req.IsStringSystem` / `req.ParseSystem`). -/
inductive ClaudeSystemContent where
  | str (s : String)
  | blocks (l : List ClaudeMediaMessage)
deriving DecidableEq, Repr

/-- A message (`dto.ClaudeMessage`): `body` stands for its `json.Marshal`
bytes; `content` is either string content (`IsStringContent`) or the
block list returned by `ParseContent`. -/
structure ClaudeMessage where
  body : String
  content : String ⊕ List ClaudeMediaMessage
deriving DecidableEq, Repr

/-- A normalized request (`dto.ClaudeRequest`), restricted to the fields
the prompt-cache module reads.  `tools = none` models `req.Tools == nil`;
each tool is represented by its `json.Marshal` bytes. -/
structure ClaudeRequest where
  tools : Option (List String)
  system : Option ClaudeSystemContent
  messages : List ClaudeMessage
deriving DecidableEq, Repr

/-- Go struct `CacheBreakpoint`. -/
structure CacheBreakpoint where
  location : String
  index : Nat
  blockIndex : Nat
  ttl : String
  tokenCount : Int
deriving DecidableEq, Repr

/-- Go struct `CachePrefix` (renamed: each list holds the `json.Marshal`
bytes of the included tools / system blocks / messages). -/
structure CachePrefixData where
  tools : List String
  system : List String
  messages : List String
deriving DecidableEq, Repr

/-- Go struct `CacheEntry` (`CreatedAt`/`ExpiresAt` as seconds). -/
structure CacheEntry where
  hash : String
  tokenCount : Int
  ttl : String
  createdAt : Nat
  expiresAt : Nat
  model : String
deriving DecidableEq, Repr

/-- Go struct `CacheResult`. -/
structure CacheResult where
  hit : Bool
  cacheReadTokens : Int
  cacheCreationTokens : Int
  cacheCreation5m : Int
  cacheCreation1h : Int
  inputTokens : Int
  breakpointHits : List Bool
deriving DecidableEq, Repr

/-- Go struct `dto.Usage`'s nested `PromptTokensDetails`, restricted to the
two fields this module writes. -/
structure PromptTokensDetails where
  cachedTokens : Int
  cachedCreationTokens : Int
deriving DecidableEq, Repr

/-- Go struct `dto.Usage`, restricted to the fields this module reads or
writes. -/
structure Usage where
  promptTokens : Int
  promptTokensDetails : PromptTokensDetails
  claudeCacheCreation5mTokens : Int
  claudeCacheCreation1hTokens : Int
deriving DecidableEq, Repr

/-- `extractCacheControlTTLFromRaw`: empty raw value or unmarshal failure
give `""`; a type other than `"ephemeral"` gives `""`; a missing `ttl`
defaults to `"5m"`; otherwise the `ttl` value is passed through verbatim. -/
def extractCacheControlTTLFromRaw : RawCC → String
  | none => ""
  | some none => ""
  | some (some cc) =>
      if cc.type ≠ "ephemeral" then ""
      else if cc.ttl = "" then "5m"
      else cc.ttl

/-- Helper for `extractCacheControlFromMessage`: Go's loop returns at the
first block whose raw `cache_control` is non-empty. -/
def firstCacheControlTTL : List ClaudeMediaMessage → String
  | [] => ""
  | b :: rest =>
      if b.cacheControl.isSome then extractCacheControlTTLFromRaw b.cacheControl
      else firstCacheControlTTL rest

/-- `extractCacheControlFromMessage`: string content yields `""`; block
content yields the TTL of the first cache-control-carrying block. -/
def extractCacheControlFromMessage (msg : ClaudeMessage) : String :=
  match msg.content with
  | Sum.inl _ => ""
  | Sum.inr blocks => firstCacheControlTTL blocks

/-- Helper: does `sub` occur as a prefix of some suffix of the list. -/
def strContainsAux (sub : List Char) : List Char → Bool
  | [] => sub.isEmpty
  | c :: rest => sub.isPrefixOf (c :: rest) || strContainsAux sub rest

/-- Substring containment, modelling Go's `strings.Contains`. -/
def strContains (s sub : String) : Bool := strContainsAux sub.data s.data

/-- ASCII lower-casing of a string, modelling Go's `strings.ToLower` as
used on model names. -/
def strToLower (s : String) : String := ⟨s.data.map Char.toLower⟩

/-- `GetMinCacheableTokens`: per model-family minimum cacheable threshold. -/
def GetMinCacheableTokens (model : String) : Int :=
  let modelLower := strToLower model
  if strContains modelLower "opus" then MinCacheableTokensOpus
  else if strContains modelLower "sonnet" then MinCacheableTokensSonnet
  else if strContains modelLower "haiku" then MinCacheableTokensHaiku
  else MinCacheableTokensDefault

/-- The `system` loop of `ExtractCacheBreakpointsWithTotal`: walks the
structured system blocks accumulating `(breakpoints, globalBlockIndex,
cacheableTokens, totalTokens)`; a block with a non-empty `cache_control`
whose extracted TTL is non-empty emits a breakpoint carrying the current
cumulative cacheable total. -/
def sysLoop (tokC : String → Nat) :
    List ClaudeMediaMessage → Nat → Nat → Int → Int →
      List CacheBreakpoint × Nat × Int × Int
  | [], _, g, c, t => ([], g, c, t)
  | b :: rest, i, g, c, t =>
      let tokens : Int := (tokC b.body : Int)
      let c' := c + tokens
      let t' := t + tokens
      let g' := g + 1
      let r := sysLoop tokC rest (i + 1) g' c' t'
      if b.cacheControl.isSome ∧ extractCacheControlTTLFromRaw b.cacheControl ≠ "" then
        (⟨"system", i, g', extractCacheControlTTLFromRaw b.cacheControl, c'⟩ :: r.1, r.2)
      else r

/-- The `messages` loop of `ExtractCacheBreakpointsWithTotal`. -/
def msgLoop (tokC : String → Nat) :
    List ClaudeMessage → Nat → Nat → Int → Int →
      List CacheBreakpoint × Nat × Int × Int
  | [], _, g, c, t => ([], g, c, t)
  | m :: rest, i, g, c, t =>
      let tokens : Int := (tokC m.body : Int)
      let c' := c + tokens
      let t' := t + tokens
      let g' := g + 1
      let r := msgLoop tokC rest (i + 1) g' c' t'
      if extractCacheControlFromMessage m ≠ "" then
        (⟨"message", i, g', extractCacheControlFromMessage m, c'⟩ :: r.1, r.2)
      else r

/-- `ExtractCacheBreakpointsWithTotal` before the final `MaxBreakpoints`
truncation: tools contribute only to `toolsTokens`/`totalTokens` (and the
global block index), then the system segment and the messages are walked
in document order. -/
def ExtractCandidatesWithTotal (tokC tokT : String → Nat) (req : ClaudeRequest) :
    List CacheBreakpoint × Int × Int :=
  let toolsTokens : Int := match req.tools with
    | some ts => ts.foldl (fun acc tl => acc + (tokC tl : Int)) 0
    | none => 0
  let g0 : Nat := match req.tools with
    | some ts => ts.length
    | none => 0
  match req.system with
  | some (ClaudeSystemContent.blocks l) =>
      let rs := sysLoop tokC l 0 g0 0 toolsTokens
      let rm := msgLoop tokC req.messages 0 rs.2.1 rs.2.2.1 rs.2.2.2
      (rs.1 ++ rm.1, rm.2.2.2, toolsTokens)
  | some (ClaudeSystemContent.str s) =>
      let c0 : Int := (tokT s : Int)
      let rm := msgLoop tokC req.messages 0 (g0 + 1) c0 (toolsTokens + c0)
      (rm.1, rm.2.2.2, toolsTokens)
  | none =>
      let rm := msgLoop tokC req.messages 0 g0 0 toolsTokens
      (rm.1, rm.2.2.2, toolsTokens)

/-- `ExtractCacheBreakpointsWithTotal`: candidates truncated to the first
`MaxBreakpoints`, together with `(totalTokens, toolsTokens)`. -/
def ExtractCacheBreakpointsWithTotal (tokC tokT : String → Nat) (req : ClaudeRequest) :
    List CacheBreakpoint × Int × Int :=
  let r := ExtractCandidatesWithTotal tokC tokT req
  (if MaxBreakpoints < r.1.length then r.1.take MaxBreakpoints else r.1, r.2)

/-- `ExtractCacheBreakpoints`. -/
def ExtractCacheBreakpoints (tokC tokT : String → Nat) (req : ClaudeRequest) :
    List CacheBreakpoint :=
  (ExtractCacheBreakpointsWithTotal tokC tokT req).1

/-- JSON encoding of a string value (escaping is irrelevant to the claims
and omitted). -/
def marshalString (s : String) : String := "\"" ++ s ++ "\""

/-- JSON encoding of a list of raw values. -/
def marshalRawList (l : List String) : String :=
  "[" ++ String.intercalate "," l ++ "]"

/-- `BuildPrefixUpToBreakpoint`: reconstructs the prefix content at or
before a breakpoint, governed by the breakpoint's location. -/
def BuildPrefixUpToBreakpoint (req : ClaudeRequest) (bp : CacheBreakpoint) :
    CachePrefixData :=
  let tools := match req.tools with
    | some ts =>
        let limit := if bp.location = "tools" then bp.index + 1 else ts.length
        ts.take limit
    | none => []
  let system :=
    if bp.location ≠ "tools" then
      match req.system with
      | some (ClaudeSystemContent.str s) => [marshalString s]
      | some (ClaudeSystemContent.blocks l) =>
          let limit := if bp.location = "system" then bp.index + 1 else l.length
          (l.take limit).map (fun b => b.body)
      | none => []
    else []
  let messages :=
    if bp.location = "message" then
      (req.messages.take (bp.index + 1)).map (fun m => m.body)
    else []
  ⟨tools, system, messages⟩

/-- Keys of an association-list representation of a Go `map`. -/
def goMapKeys (m : List (String × String)) : List String := m.map Prod.fst

/-- Insertion into the key-sorted association list modelling a Go
`map[string]interface{}`: Go maps are unordered, and `json.Marshal`
serializes them with keys in sorted order, so the model keeps the entries
key-sorted at all times. -/
def mapInsert (k v : String) : List (String × String) → List (String × String)
  | [] => [(k, v)]
  | (k', v') :: rest =>
      if k = k' then (k, v) :: rest
      else if k < k' then (k, v) :: (k', v') :: rest
      else (k', v') :: mapInsert k v rest

/-- Builds the Go map from the written insertion sequence. -/
def buildGoMap (l : List (String × String)) : List (String × String) :=
  l.foldl (fun m kv => mapInsert kv.1 kv.2 m) []

/-- `json.Marshal` of the map: entries already key-sorted. -/
def marshalMapEntries (m : List (String × String)) : String :=
  "\x7b" ++
    String.intercalate "," (m.map (fun kv => marshalString kv.1 ++ ":" ++ kv.2)) ++
  "\x7d"

/-- The field-insertion sequence of `CalculatePrefixHash`: `model` always,
then `tools`/`system`/`messages` only when non-empty, in source order. -/
def prefixFields (p : CachePrefixData) (model : String) : List (String × String) :=
  [("model", marshalString model)]
    ++ (if 0 < p.tools.length then [("tools", marshalRawList p.tools)] else [])
    ++ (if 0 < p.system.length then [("system", marshalRawList p.system)] else [])
    ++ (if 0 < p.messages.length then [("messages", marshalRawList p.messages)] else [])

/-- `CalculatePrefixHash`: builds the data map, marshals it (sorted keys),
and digests the result (`digest` abstracts `hex(sha256(·))`). -/
def CalculatePrefixHash (digest : String → String) (p : CachePrefixData)
    (model : String) : String :=
  digest (marshalMapEntries (buildGoMap (prefixFields p model)))

/-- `CalculateSystemHash`: hash over the system prompt only; `""` when the
request has no system field. -/
def CalculateSystemHash (digest : String → String) (req : ClaudeRequest)
    (model : String) : String :=
  match req.system with
  | none => ""
  | some sf =>
      let systemBytes := match sf with
        | ClaudeSystemContent.str s => marshalString s
        | ClaudeSystemContent.blocks l => marshalRawList (l.map (fun b => b.body))
      digest (marshalMapEntries (buildGoMap
        [("model", marshalString model), ("system", marshalString systemBytes)]))

/-- `GetCacheKey`. -/
def GetCacheKey (model hash : String) : String :=
  PCacheKeyTag ++ ":" ++ model ++ ":" ++ hash

/-- `GetFuzzyCacheKey`. -/
def GetFuzzyCacheKey (model systemHash : String) : String :=
  PCacheFuzzyTag ++ ":" ++ model ++ ":" ++ systemHash

/-- The fingerprint store: `redisEnabled` models `common.RedisEnabled`;
`exactGet`/`fuzzyGet` model the caller-observable outcome of a read at a
key (`none` covers a Redis error, an empty value and an unmarshal failure,
which every caller treats alike as a miss). -/
structure FingerprintStore where
  redisEnabled : Bool
  exactGet : String → Option CacheEntry
  fuzzyGet : String → Option Int

/-- `GetCacheEntry`: a miss (`nil, nil`) when Redis is disabled, otherwise
the store read at `GetCacheKey model hash`. -/
def GetCacheEntry (st : FingerprintStore) (model hash : String) : Option CacheEntry :=
  if st.redisEnabled then st.exactGet (GetCacheKey model hash) else none

/-- `GetFuzzyEntry`: `(0, false)` when Redis is disabled or the system hash
is empty, otherwise the stored token count with a found flag. -/
def GetFuzzyEntry (st : FingerprintStore) (model systemHash : String) : Int × Bool :=
  if st.redisEnabled = false ∨ systemHash = "" then (0, false)
  else match st.fuzzyGet (GetFuzzyCacheKey model systemHash) with
    | some t => (t, true)
    | none => (0, false)

/-- `StoreCacheEntry`, modelled as the write it would issue: `none` when
Redis is disabled (skipped silently); otherwise the key, the entry with
`CreatedAt`/`ExpiresAt` stamped, and the selected TTL duration. -/
def StoreCacheEntry (st : FingerprintStore) (now : Nat) (entry : CacheEntry) :
    Option (String × CacheEntry × Nat) :=
  if st.redisEnabled = false then none
  else
    let key := GetCacheKey entry.model entry.hash
    let ttl := if entry.ttl = "1h" then TTL1h else TTL5m
    some (key, { entry with createdAt := now, expiresAt := now + ttl }, ttl)

/-- `StoreFuzzyEntry`, modelled as the write it would issue: `none` when
Redis is disabled or the system hash is empty; otherwise the key, the
stored `(tokens, ttl)` pair, and the selected TTL duration. -/
def StoreFuzzyEntry (st : FingerprintStore) (model systemHash : String)
    (tokenCount : Int) (ttl : String) : Option (String × Int × String × Nat) :=
  if st.redisEnabled = false ∨ systemHash = "" then none
  else some (GetFuzzyCacheKey model systemHash, tokenCount, ttl,
    if ttl = "1h" then TTL1h else TTL5m)

/-- Whether the exact-store lookup for a breakpoint's prefix succeeds
(`err == nil && entry != nil` on `GetCacheEntry` of the prefix hash). -/
def bpLookupHit (st : FingerprintStore) (digest : String → String)
    (req : ClaudeRequest) (model : String) (bp : CacheBreakpoint) : Bool :=
  (GetCacheEntry st model
    (CalculatePrefixHash digest (BuildPrefixUpToBreakpoint req bp) model)).isSome

/-- The running accounting of the resolvers: mirrors the local variables
`cacheReadTokens` / `cacheCreate5m` / `cacheCreate1h` / `cacheCreateTokens`
/ `lastCacheTokens` (resp. `lastHitTokens`). -/
structure SimState where
  read : Int
  create5m : Int
  create1h : Int
  createTotal : Int
  last : Int
deriving DecidableEq, Repr

def initSimState : SimState := ⟨0, 0, 0, 0, 0⟩

/-- One step of the post-hit creation loop (`bp.TokenCount >= minTokens`
guard, incremental delta since the last accounted boundary, bucketed by
the breakpoint's own TTL). -/
def creationStepGE (minT : Int) (s : SimState) (bp : CacheBreakpoint) : SimState :=
  if minT ≤ bp.tokenCount then
    let d := bp.tokenCount - s.last
    { s with
      create5m := if bp.ttl = "1h" then s.create5m else s.create5m + d,
      create1h := if bp.ttl = "1h" then s.create1h + d else s.create1h,
      createTotal := s.createTotal + d,
      last := bp.tokenCount }
  else s

/-- One step of the creation loop after a fuzzy hit (guard additionally
requires the token count to exceed the last accounted boundary). -/
def fuzzyStep (minT : Int) (s : SimState) (bp : CacheBreakpoint) : SimState :=
  if s.last < bp.tokenCount ∧ minT ≤ bp.tokenCount then
    let d := bp.tokenCount - s.last
    { s with
      create5m := if bp.ttl = "1h" then s.create5m else s.create5m + d,
      create1h := if bp.ttl = "1h" then s.create1h + d else s.create1h,
      createTotal := s.createTotal + d,
      last := bp.tokenCount }
  else s

/-- One step of the full-miss creation loop, threading the separate
`prevTokens` variable alongside the state. -/
def missStep (minT : Int) (sp : SimState × Int) (bp : CacheBreakpoint) :
    SimState × Int :=
  if minT ≤ bp.tokenCount then
    let d := bp.tokenCount - sp.2
    ({ sp.1 with
      create5m := if bp.ttl = "1h" then sp.1.create5m else sp.1.create5m + d,
      create1h := if bp.ttl = "1h" then sp.1.create1h + d else sp.1.create1h,
      createTotal := sp.1.createTotal + d,
      last := bp.tokenCount }, bp.tokenCount)
  else sp

/-- The descending exact-match scan (`for i := len-1; i >= 0; i--` with
`break` on the first hit): returns the greatest index whose breakpoint
clears the threshold and whose prefix lookup hits. -/
def lastHit (p : CacheBreakpoint → Bool) (minT : Int) :
    List CacheBreakpoint → Option (Nat × CacheBreakpoint)
  | [] => none
  | bp :: rest =>
      match lastHit p minT rest with
      | some (i, b) => some (i + 1, b)
      | none =>
          if minT ≤ bp.tokenCount ∧ p bp = true then some (0, bp) else none

/-- The exact-match phase shared verbatim by `CheckCacheHits` and
`applyLocalCacheSimulation`: on a hit at index `i`, credit the hit
breakpoint's tokens as the read amount and run the creation loop over the
longer breakpoints. -/
def exactPhase (p : CacheBreakpoint → Bool) (minT : Int)
    (bps : List CacheBreakpoint) : Option (Nat × SimState) :=
  match lastHit p minT bps with
  | none => none
  | some (i, bp) =>
      some (i, (bps.drop (i + 1)).foldl (creationStepGE minT)
        ⟨bp.tokenCount, 0, 0, 0, bp.tokenCount⟩)

def dfltBp : CacheBreakpoint := ⟨"", 0, 0, "", 0⟩

/-- `CheckCacheHits`: extracts breakpoints, scans for an exact hit from
longest to shortest, marks the hit and every shorter breakpoint, then
computes read/creation buckets and the remaining input tokens after the
last breakpoint (floored at zero). -/
def CheckCacheHits (tokC tokT : String → Nat) (st : FingerprintStore)
    (digest : String → String) (req : ClaudeRequest) (model : String)
    (totalInputTokens : Int) : CacheResult :=
  let bps := ExtractCacheBreakpoints tokC tokT req
  if bps.isEmpty then
    ⟨false, 0, 0, 0, 0, totalInputTokens, List.replicate bps.length false⟩
  else
    let minT := GetMinCacheableTokens model
    let inputAfter :=
      let it := totalInputTokens - (bps.getLastD dfltBp).tokenCount
      if it < 0 then 0 else it
    match exactPhase (bpLookupHit st digest req model) minT bps with
    | some (i, s) =>
        ⟨true, s.read, s.createTotal, s.create5m, s.create1h, inputAfter,
          (List.range bps.length).map (fun k => decide (k ≤ i))⟩
    | none =>
        let s := (bps.foldl (missStep minT) (initSimState, 0)).1
        ⟨false, 0, s.createTotal, s.create5m, s.create1h, inputAfter,
          List.replicate bps.length false⟩

/-- The resolution phase of `applyLocalCacheSimulation`, exposing the
locally computed accounting: breakpoints and totals from the extractor,
the final `SimState` after the exact / fuzzy / full-miss phases, and the
computed non-cached input figure (clamped at zero).  The fire-and-forget
`StoreFuzzyEntry` / `StoreCacheBreakpoints` goroutines have no effect on
the returned usage record and are not part of this value. -/
structure SimOutcome where
  breakpoints : List CacheBreakpoint
  localTotal : Int
  toolsTokens : Int
  state : SimState
  nonCache : Int
deriving Repr

/-- Phases 1 and 2 of `applyLocalCacheSimulation`'s resolution: the exact
scan, then on a full exact miss the fuzzy fallback (`fuzzy` is the result
of `GetFuzzyEntry` on the request's system hash): when a fuzzy entry is
found and the first breakpoint clears the threshold, the stored token
count (capped by the first breakpoint's count) is credited as the read
amount and the remaining breakpoints are processed as creations. -/
def simPhase1 (p : CacheBreakpoint → Bool) (minT : Int) (fuzzy : Int × Bool)
    (bps : List CacheBreakpoint) : SimState :=
  match exactPhase p minT bps with
  | some (_, s) => s
  | none =>
      match bps with
      | [] => initSimState
      | bp0 :: _ =>
          if fuzzy.2 = true ∧ minT ≤ bp0.tokenCount then
            let r := if bp0.tokenCount < fuzzy.1 then bp0.tokenCount else fuzzy.1
            bps.foldl (fuzzyStep minT) ⟨r, 0, 0, 0, r⟩
          else initSimState

/-- Phase 3 of `applyLocalCacheSimulation`'s resolution: when no read was
credited and breakpoints exist, every above-threshold breakpoint becomes
a creation boundary (with `prevTokens` restarting at 0). -/
def simPhase3 (minT : Int) (bps : List CacheBreakpoint) (s1 : SimState) :
    SimState :=
  if s1.read = 0 ∧ bps.isEmpty = false then (bps.foldl (missStep minT) (s1, 0)).1
  else s1

def localCacheAccounting (tokC tokT : String → Nat) (st : FingerprintStore)
    (digest : String → String) (req : ClaudeRequest) (model : String) :
    SimOutcome :=
  let e := ExtractCacheBreakpointsWithTotal tokC tokT req
  let bps := e.1
  let localTotal := e.2.1
  let toolsTokens := e.2.2
  let cacheableTotal := localTotal - toolsTokens
  let minT := GetMinCacheableTokens model
  let s1 := simPhase1 (bpLookupHit st digest req model) minT
    (GetFuzzyEntry st model (CalculateSystemHash digest req model)) bps
  let s2 := simPhase3 minT bps s1
  let nc0 := toolsTokens + (cacheableTotal - s2.last)
  ⟨bps, localTotal, toolsTokens, s2, if nc0 < 0 then 0 else nc0⟩

/-- `applyLocalCacheSimulation`: returns the usage record unchanged when
the local total is zero or when no cache activity was found; otherwise
overrides the cache fields, and overrides `PromptTokens` only when the
computed non-cached figure is positive. -/
def applyLocalCacheSimulation (tokC tokT : String → Nat) (st : FingerprintStore)
    (digest : String → String) (req : ClaudeRequest) (model : String)
    (usage : Usage) : Usage :=
  let o := localCacheAccounting tokC tokT st digest req model
  if o.localTotal = 0 then usage
  else if o.state.read = 0 ∧ o.state.createTotal = 0 then usage
  else
    let u1 : Usage :=
      { usage with
        promptTokensDetails := ⟨o.state.read, o.state.createTotal⟩,
        claudeCacheCreation5mTokens := o.state.create5m,
        claudeCacheCreation1hTokens := o.state.create1h }
    if 0 < o.nonCache then { u1 with promptTokens := o.nonCache } else u1

/-! ### Concrete fixtures used by counterexamples and witnesses -/

/-- Tokenizer assigning 50 tokens to every fragment. -/
def tokFifty : String → Nat := fun _ => 50

/-- Tokenizer assigning 3 tokens to every fragment (below the threshold 5). -/
def tokThree : String → Nat := fun _ => 3

/-- Tokenizer assigning 10 tokens to the tool body `"T"` and 50 otherwise. -/
def tokToolTen : String → Nat := fun s => if s = "T" then 10 else 50

/-- A request with a single system block marked `ephemeral` (no tools). -/
def reqOneSysBp : ClaudeRequest :=
  ⟨none, some (ClaudeSystemContent.blocks
    [⟨"B", some (some ⟨"ephemeral", ""⟩)⟩]), []⟩

/-- A request with one tool and a single system block marked `ephemeral`. -/
def reqToolSysBp : ClaudeRequest :=
  ⟨some ["T"], some (ClaudeSystemContent.blocks
    [⟨"B", some (some ⟨"ephemeral", ""⟩)⟩]), []⟩

/-- A store with Redis disabled. -/
def stDisabled : FingerprintStore := ⟨false, fun _ => none, fun _ => none⟩

/-- An enabled store with no exact entries and no fuzzy entries. -/
def stEmpty : FingerprintStore := ⟨true, fun _ => none, fun _ => none⟩

/-- An enabled store with no exact entries and a fuzzy entry of 0 tokens
under every key (reachable: a previous full miss stores the first
breakpoint's token count, which can be 0). -/
def stFuzzyZero : FingerprintStore := ⟨true, fun _ => none, fun _ => some 0⟩

/-- An enabled store with no exact entries and a fuzzy entry of 30 tokens
under every key. -/
def stFuzzyThirty : FingerprintStore := ⟨true, fun _ => none, fun _ => some 30⟩

/-- A fixed stand-in digest function. -/
def digestD : String → String := fun _ => "h"

/-- An upstream usage record. -/
def usageW : Usage := ⟨77, ⟨0, 0⟩, 0, 0⟩

end Claude

namespace Claude

/-! ### Extractor lemmas -/

lemma sysLoop_spec (tokC : String → Nat) (l : List ClaudeMediaMessage) :
    ∀ (i g : Nat) (c t : Int),
      (∀ bp ∈ (sysLoop tokC l i g c t).1,
          bp.location = "system" ∧ c ≤ bp.tokenCount ∧
          bp.tokenCount ≤ (sysLoop tokC l i g c t).2.2.1) ∧
      List.Pairwise (fun a b : CacheBreakpoint => a.tokenCount ≤ b.tokenCount)
        (sysLoop tokC l i g c t).1 ∧
      c ≤ (sysLoop tokC l i g c t).2.2.1 ∧
      (sysLoop tokC l i g c t).2.2.2 - (sysLoop tokC l i g c t).2.2.1 = t - c := by
  induction l with
  | nil => intro i g c t; simp [sysLoop]
  | cons b rest ih =>
      intro i g c t
      have h0 : (0 : Int) ≤ (tokC b.body : Int) := Int.ofNat_nonneg _
      obtain ⟨ih1, ih2, ih3, ih4⟩ :=
        ih (i + 1) (g + 1) (c + (tokC b.body : Int)) (t + (tokC b.body : Int))
      simp only [sysLoop]
      split
      · refine ⟨?_, ?_, by linarith, by linarith⟩
        · intro bp hbp
          rcases List.mem_cons.mp hbp with h | h
          · subst h
            exact ⟨rfl, by simpa using h0, by simpa using ih3⟩
          · obtain ⟨hl, hc, hb⟩ := ih1 bp h
            exact ⟨hl, by linarith, hb⟩
        · refine List.pairwise_cons.mpr ⟨?_, ih2⟩
          intro bp hbp
          obtain ⟨_, hc, _⟩ := ih1 bp hbp
          simpa using hc
      · refine ⟨fun bp hbp => ?_, ih2, by linarith, by linarith⟩
        obtain ⟨hl, hc, hb⟩ := ih1 bp hbp
        exact ⟨hl, by linarith, hb⟩

lemma msgLoop_spec (tokC : String → Nat) (l : List ClaudeMessage) :
    ∀ (i g : Nat) (c t : Int),
      (∀ bp ∈ (msgLoop tokC l i g c t).1,
          bp.location = "message" ∧ c ≤ bp.tokenCount ∧
          bp.tokenCount ≤ (msgLoop tokC l i g c t).2.2.1 ∧ i ≤ bp.index) ∧
      List.Pairwise (fun a b : CacheBreakpoint => a.tokenCount ≤ b.tokenCount)
        (msgLoop tokC l i g c t).1 ∧
      List.Pairwise (fun a b : CacheBreakpoint => a.index < b.index)
        (msgLoop tokC l i g c t).1 ∧
      c ≤ (msgLoop tokC l i g c t).2.2.1 ∧
      (msgLoop tokC l i g c t).2.2.2 - (msgLoop tokC l i g c t).2.2.1 = t - c := by
  induction l with
  | nil => intro i g c t; simp [msgLoop]
  | cons m rest ih =>
      intro i g c t
      have h0 : (0 : Int) ≤ (tokC m.body : Int) := Int.ofNat_nonneg _
      obtain ⟨ih1, ih2, ih2i, ih3, ih4⟩ :=
        ih (i + 1) (g + 1) (c + (tokC m.body : Int)) (t + (tokC m.body : Int))
      simp only [msgLoop]
      split
      · refine ⟨?_, ?_, ?_, by linarith, by linarith⟩
        · intro bp hbp
          rcases List.mem_cons.mp hbp with h | h
          · subst h
            exact ⟨rfl, by simpa using h0, by simpa using ih3, le_refl _⟩
          · obtain ⟨hl, hc, hb, hi⟩ := ih1 bp h
            exact ⟨hl, by linarith, hb, by omega⟩
        · refine List.pairwise_cons.mpr ⟨?_, ih2⟩
          intro bp hbp
          obtain ⟨_, hc, _, _⟩ := ih1 bp hbp
          simpa using hc
        · refine List.pairwise_cons.mpr ⟨?_, ih2i⟩
          intro bp hbp
          obtain ⟨_, _, _, hi⟩ := ih1 bp hbp
          simpa using Nat.lt_of_lt_of_le (Nat.lt_succ_self i) hi
      · refine ⟨fun bp hbp => ?_, ih2, ih2i, by linarith, by linarith⟩
        obtain ⟨hl, hc, hb, hi⟩ := ih1 bp hbp
        exact ⟨hl, by linarith, hb, by omega⟩

lemma toolsFold_nonneg (tokC : String → Nat) (ts : List String) :
    ∀ a : Int, a ≤ ts.foldl (fun acc tl => acc + (tokC tl : Int)) a := by
  induction ts with
  | nil => intro a; simp
  | cons x rest ih =>
      intro a
      have h0 : (0 : Int) ≤ (tokC x : Int) := Int.ofNat_nonneg _
      calc a ≤ a + (tokC x : Int) := by linarith
        _ ≤ rest.foldl (fun acc tl => acc + (tokC tl : Int)) (a + (tokC x : Int)) := ih _

/-- Bundle of facts about the candidate list before truncation: every
breakpoint's token count lies between 0 and the cacheable total
(`totalTokens - toolsTokens`), token counts are non-decreasing in document
order, and `toolsTokens` and the cacheable total are non-negative. -/
lemma extractCandidates_spec (tokC tokT : String → Nat) (req : ClaudeRequest) :
    (∀ bp ∈ (ExtractCandidatesWithTotal tokC tokT req).1,
        0 ≤ bp.tokenCount ∧
        bp.tokenCount ≤ (ExtractCandidatesWithTotal tokC tokT req).2.1 -
          (ExtractCandidatesWithTotal tokC tokT req).2.2) ∧
    List.Pairwise (fun a b : CacheBreakpoint => a.tokenCount ≤ b.tokenCount)
      (ExtractCandidatesWithTotal tokC tokT req).1 ∧
    0 ≤ (ExtractCandidatesWithTotal tokC tokT req).2.2 ∧
    0 ≤ (ExtractCandidatesWithTotal tokC tokT req).2.1 -
        (ExtractCandidatesWithTotal tokC tokT req).2.2 := by
  have htools : (0 : Int) ≤ (match req.tools with
      | some ts => ts.foldl (fun acc tl => acc + (tokC tl : Int)) 0
      | none => 0) := by
    cases req.tools with
    | none => simp
    | some ts => simpa using toolsFold_nonneg tokC ts 0
  cases hsys : req.system with
  | none =>
      simp only [ExtractCandidatesWithTotal, hsys]
      obtain ⟨m1, m2, _, m3, m4⟩ := msgLoop_spec tokC req.messages 0
        (match req.tools with | some ts => ts.length | none => 0) 0
        (match req.tools with | some ts => ts.foldl (fun acc tl => acc + (tokC tl : Int)) 0 | none => 0)
      refine ⟨?_, m2, htools, by omega⟩
      intro bp hbp
      obtain ⟨_, hc, hb, _⟩ := m1 bp hbp
      exact ⟨hc, by omega⟩
  | some sf =>
      cases sf with
      | str s =>
          simp only [ExtractCandidatesWithTotal, hsys]
          have h0 : (0 : Int) ≤ (tokT s : Int) := Int.ofNat_nonneg _
          obtain ⟨m1, m2, _, m3, m4⟩ := msgLoop_spec tokC req.messages 0
            ((match req.tools with | some ts => ts.length | none => 0) + 1)
            ((tokT s : Int))
            ((match req.tools with | some ts => ts.foldl (fun acc tl => acc + (tokC tl : Int)) 0 | none => 0) + (tokT s : Int))
          refine ⟨?_, m2, htools, by omega⟩
          intro bp hbp
          obtain ⟨_, hc, hb, _⟩ := m1 bp hbp
          exact ⟨by linarith, by omega⟩
      | blocks l =>
          simp only [ExtractCandidatesWithTotal, hsys]
          obtain ⟨s1, s2, s3, s4⟩ := sysLoop_spec tokC l 0
            (match req.tools with | some ts => ts.length | none => 0) 0
            (match req.tools with | some ts => ts.foldl (fun acc tl => acc + (tokC tl : Int)) 0 | none => 0)
          obtain ⟨m1, m2, _, m3, m4⟩ := msgLoop_spec tokC req.messages 0
            (sysLoop tokC l 0 (match req.tools with | some ts => ts.length | none => 0) 0
              (match req.tools with | some ts => ts.foldl (fun acc tl => acc + (tokC tl : Int)) 0 | none => 0)).2.1
            (sysLoop tokC l 0 (match req.tools with | some ts => ts.length | none => 0) 0
              (match req.tools with | some ts => ts.foldl (fun acc tl => acc + (tokC tl : Int)) 0 | none => 0)).2.2.1
            (sysLoop tokC l 0 (match req.tools with | some ts => ts.length | none => 0) 0
              (match req.tools with | some ts => ts.foldl (fun acc tl => acc + (tokC tl : Int)) 0 | none => 0)).2.2.2
          refine ⟨?_, ?_, htools, by omega⟩
          · intro bp hbp
            simp only [List.mem_append] at hbp
            rcases hbp with h | h
            · obtain ⟨_, hc, hb⟩ := s1 bp h
              exact ⟨hc, by omega⟩
            · obtain ⟨_, hc, hb, _⟩ := m1 bp h
              exact ⟨by linarith, by omega⟩
          · refine List.pairwise_append.mpr ⟨s2, m2, ?_⟩
            intro a ha b hb
            obtain ⟨_, _, hab⟩ := s1 a ha
            obtain ⟨_, hbc, _, _⟩ := m1 b hb
            linarith

end Claude

namespace Claude

lemma extractBps_eq_take (tokC tokT : String → Nat) (req : ClaudeRequest) :
    (ExtractCacheBreakpointsWithTotal tokC tokT req).1 =
      (ExtractCandidatesWithTotal tokC tokT req).1.take MaxBreakpoints := by
  unfold ExtractCacheBreakpointsWithTotal
  by_cases h : MaxBreakpoints < (ExtractCandidatesWithTotal tokC tokT req).1.length
  · simp [h]
  · simp only [h, if_false]
    exact (List.take_of_length_le (by omega)).symm

lemma extractBps_totals (tokC tokT : String → Nat) (req : ClaudeRequest) :
    (ExtractCacheBreakpointsWithTotal tokC tokT req).2 =
      (ExtractCandidatesWithTotal tokC tokT req).2 := rfl

lemma extractBps_sublist (tokC tokT : String → Nat) (req : ClaudeRequest) :
    List.Sublist (ExtractCacheBreakpointsWithTotal tokC tokT req).1
      (ExtractCandidatesWithTotal tokC tokT req).1 := by
  rw [extractBps_eq_take]
  exact List.take_sublist _ _

/-- The facts of `extractCandidates_spec` transferred to the truncated
breakpoint list actually returned by `ExtractCacheBreakpointsWithTotal`. -/
lemma extractBps_spec (tokC tokT : String → Nat) (req : ClaudeRequest) :
    (∀ bp ∈ (ExtractCacheBreakpointsWithTotal tokC tokT req).1,
        0 ≤ bp.tokenCount ∧
        bp.tokenCount ≤ (ExtractCacheBreakpointsWithTotal tokC tokT req).2.1 -
          (ExtractCacheBreakpointsWithTotal tokC tokT req).2.2) ∧
    List.Pairwise (fun a b : CacheBreakpoint => a.tokenCount ≤ b.tokenCount)
      (ExtractCacheBreakpointsWithTotal tokC tokT req).1 ∧
    0 ≤ (ExtractCacheBreakpointsWithTotal tokC tokT req).2.2 ∧
    0 ≤ (ExtractCacheBreakpointsWithTotal tokC tokT req).2.1 -
        (ExtractCacheBreakpointsWithTotal tokC tokT req).2.2 := by
  obtain ⟨h1, h2, h3, h4⟩ := extractCandidates_spec tokC tokT req
  have hsub := extractBps_sublist tokC tokT req
  rw [extractBps_totals]
  exact ⟨fun bp hbp => h1 bp (hsub.mem hbp), h2.sublist hsub, h3, h4⟩

lemma getMinCacheableTokens_eq (model : String) :
    GetMinCacheableTokens model = 5 := by
  simp [GetMinCacheableTokens, MinCacheableTokensOpus, MinCacheableTokensSonnet,
    MinCacheableTokensHaiku, MinCacheableTokensDefault]

/-- A list pairwise-related by a relation that two `p`-satisfying elements
can never share keeps at most one `p`-satisfying element. -/
lemma filter_length_le_one_of_pairwise {α : Type} {r : α → α → Prop}
    {p : α → Bool} {l : List α}
    (hp : List.Pairwise r l)
    (hexcl : ∀ a b, r a b → p a = true → p b = true → False) :
    (l.filter p).length ≤ 1 := by
  induction l with
  | nil => simp
  | cons x rest ih =>
      obtain ⟨hx, hrest⟩ := List.pairwise_cons.mp hp
      by_cases hpx : p x = true
      · have hnil : rest.filter p = [] := by
          rw [List.filter_eq_nil_iff]
          intro b hb hpb
          exact hexcl x b (hx b hb) hpx (by simpa using hpb)
        simp [List.filter_cons, hpx, hnil]
      · simp only [List.filter_cons, if_neg hpx]
        exact ih hrest

end Claude

namespace Claude

lemma firstCacheControlTTL_append (b : ClaudeMediaMessage)
    (rest : List ClaudeMediaMessage) :
    ∀ pre : List ClaudeMediaMessage, (∀ x ∈ pre, x.cacheControl = none) →
      b.cacheControl.isSome = true →
      firstCacheControlTTL (pre ++ b :: rest) =
        extractCacheControlTTLFromRaw b.cacheControl := by
  intro pre
  induction pre with
  | nil =>
      intro _ hb
      simp [firstCacheControlTTL, hb]
  | cons x pre' ih =>
      intro hpre hb
      have hx : x.cacheControl = none := hpre x (List.mem_cons_self x pre')
      have : firstCacheControlTTL ((x :: pre') ++ b :: rest) =
          firstCacheControlTTL (pre' ++ b :: rest) := by
        simp [firstCacheControlTTL, hx]
      rw [this]
      exact ih (fun y hy => hpre y (List.mem_cons_of_mem x hy)) hb

lemma candidates_msgFilter (tokC tokT : String → Nat) (req : ClaudeRequest)
    (i : Nat) :
    ((ExtractCandidatesWithTotal tokC tokT req).1.filter
      (fun bp => bp.location == "message" && bp.index == i)).length ≤ 1 := by
  have hexcl : ∀ a b : CacheBreakpoint, a.index < b.index →
      (a.location == "message" && a.index == i) = true →
      (b.location == "message" && b.index == i) = true → False := by
    intro a b hab ha hb
    simp only [Bool.and_eq_true, beq_iff_eq] at ha hb
    omega
  cases hsys : req.system with
  | none =>
      simp only [ExtractCandidatesWithTotal, hsys]
      obtain ⟨_, _, hidx, _, _⟩ := msgLoop_spec tokC req.messages 0
        (match req.tools with | some ts => ts.length | none => 0) 0
        (match req.tools with | some ts => ts.foldl (fun acc tl => acc + (tokC tl : Int)) 0 | none => 0)
      exact filter_length_le_one_of_pairwise hidx hexcl
  | some sf =>
      cases sf with
      | str s =>
          simp only [ExtractCandidatesWithTotal, hsys]
          obtain ⟨_, _, hidx, _, _⟩ := msgLoop_spec tokC req.messages 0
            ((match req.tools with | some ts => ts.length | none => 0) + 1)
            ((tokT s : Int))
            ((match req.tools with | some ts => ts.foldl (fun acc tl => acc + (tokC tl : Int)) 0 | none => 0) + (tokT s : Int))
          exact filter_length_le_one_of_pairwise hidx hexcl
      | blocks l =>
          simp only [ExtractCandidatesWithTotal, hsys]
          obtain ⟨s1, _, _, _⟩ := sysLoop_spec tokC l 0
            (match req.tools with | some ts => ts.length | none => 0) 0
            (match req.tools with | some ts => ts.foldl (fun acc tl => acc + (tokC tl : Int)) 0 | none => 0)
          obtain ⟨_, _, hidx, _, _⟩ := msgLoop_spec tokC req.messages 0
            (sysLoop tokC l 0 (match req.tools with | some ts => ts.length | none => 0) 0
              (match req.tools with | some ts => ts.foldl (fun acc tl => acc + (tokC tl : Int)) 0 | none => 0)).2.1
            (sysLoop tokC l 0 (match req.tools with | some ts => ts.length | none => 0) 0
              (match req.tools with | some ts => ts.foldl (fun acc tl => acc + (tokC tl : Int)) 0 | none => 0)).2.2.1
            (sysLoop tokC l 0 (match req.tools with | some ts => ts.length | none => 0) 0
              (match req.tools with | some ts => ts.foldl (fun acc tl => acc + (tokC tl : Int)) 0 | none => 0)).2.2.2
          rw [List.filter_append]
          have hnil : (sysLoop tokC l 0
              (match req.tools with | some ts => ts.length | none => 0) 0
              (match req.tools with | some ts => ts.foldl (fun acc tl => acc + (tokC tl : Int)) 0 | none => 0)).1.filter
              (fun bp => bp.location == "message" && bp.index == i) = [] := by
            rw [List.filter_eq_nil_iff]
            intro bp hbp
            obtain ⟨hloc, _, _⟩ := s1 bp hbp
            simp [hloc]
          rw [hnil]
          simpa using filter_length_le_one_of_pairwise hidx hexcl

/-- **C7.** For every request (and any tokenizer), the breakpoint list
produced by `ExtractCacheBreakpointsWithTotal` has non-decreasing token
counts in document order, contains at most `MaxBreakpoints = 4`
breakpoints, and equals the first 4 candidates in document order. -/
theorem c7_breakpoints_monotone_and_truncated (tokC tokT : String → Nat)
    (req : ClaudeRequest) :
    List.Pairwise (fun a b : CacheBreakpoint => a.tokenCount ≤ b.tokenCount)
      (ExtractCacheBreakpoints tokC tokT req) ∧
    (ExtractCacheBreakpoints tokC tokT req).length ≤ MaxBreakpoints ∧
    ExtractCacheBreakpoints tokC tokT req =
      (ExtractCandidatesWithTotal tokC tokT req).1.take MaxBreakpoints := by
  obtain ⟨_, h2, _, _⟩ := extractBps_spec tokC tokT req
  have htake := extractBps_eq_take tokC tokT req
  refine ⟨h2, ?_, htake⟩
  show (ExtractCacheBreakpointsWithTotal tokC tokT req).1.length ≤ MaxBreakpoints
  rw [htake, List.length_take]
  omega

/-- **C10.** Cache-control parsing: an `ephemeral` annotation without a
`ttl` yields TTL class `"5m"` (and, on a system block, a breakpoint with
that class); a non-`ephemeral` type or a JSON parse failure yields no
TTL hence no breakpoint; a message's TTL comes from its first
cache-control-carrying block; and each message index contributes at most
one breakpoint to the extracted list. -/
theorem c10_cache_control_semantics :
    (extractCacheControlTTLFromRaw (some (some ⟨"ephemeral", ""⟩)) = "5m")
    ∧ (∀ (tokC : String → Nat) (b : ClaudeMediaMessage)
        (rest : List ClaudeMediaMessage) (i g : Nat) (c t : Int),
        b.cacheControl = some (some ⟨"ephemeral", ""⟩) →
        (sysLoop tokC (b :: rest) i g c t).1 =
          ⟨"system", i, g + 1, "5m", c + (tokC b.body : Int)⟩ ::
            (sysLoop tokC rest (i + 1) (g + 1) (c + (tokC b.body : Int))
              (t + (tokC b.body : Int))).1)
    ∧ (∀ cc : CacheControlField, cc.type ≠ "ephemeral" →
        extractCacheControlTTLFromRaw (some (some cc)) = "")
    ∧ (extractCacheControlTTLFromRaw (some none) = "")
    ∧ (∀ (msg : ClaudeMessage) (pre : List ClaudeMediaMessage)
        (b : ClaudeMediaMessage) (rest : List ClaudeMediaMessage),
        msg.content = Sum.inr (pre ++ b :: rest) →
        (∀ x ∈ pre, x.cacheControl = none) → b.cacheControl.isSome = true →
        extractCacheControlFromMessage msg =
          extractCacheControlTTLFromRaw b.cacheControl)
    ∧ (∀ (tokC tokT : String → Nat) (req : ClaudeRequest) (i : Nat),
        ((ExtractCacheBreakpoints tokC tokT req).filter
          (fun bp => bp.location == "message" && bp.index == i)).length ≤ 1) := by
  refine ⟨rfl, ?_, ?_, rfl, ?_, ?_⟩
  · intro tokC b rest i g c t hb
    simp [sysLoop, hb, extractCacheControlTTLFromRaw]
  · intro cc hcc
    simp [extractCacheControlTTLFromRaw, hcc]
  · intro msg pre b rest hcontent hpre hb
    unfold extractCacheControlFromMessage
    rw [hcontent]
    exact firstCacheControlTTL_append b rest pre hpre hb
  · intro tokC tokT req i
    have hsub : List.Sublist
        ((ExtractCacheBreakpoints tokC tokT req).filter
          (fun bp => bp.location == "message" && bp.index == i))
        (((ExtractCandidatesWithTotal tokC tokT req).1).filter
          (fun bp => bp.location == "message" && bp.index == i)) :=
      List.Sublist.filter _ (extractBps_sublist tokC tokT req)
    exact le_trans hsub.length_le (candidates_msgFilter tokC tokT req i)

/-- Witness for C10: a message whose first block carries no cache control
and whose second block carries `ephemeral`/`1h` gets TTL class `"1h"`
from that second (first-carrying) block. -/
theorem c10_cache_control_semantics_witness :
    extractCacheControlFromMessage
      ⟨"M", Sum.inr [⟨"x", none⟩, ⟨"y", some (some ⟨"ephemeral", "1h"⟩)⟩,
        ⟨"z", some (some ⟨"ephemeral", ""⟩)⟩]⟩ = "1h" := by
  have h := c10_cache_control_semantics.2.2.2.2.1
    ⟨"M", Sum.inr [⟨"x", none⟩, ⟨"y", some (some ⟨"ephemeral", "1h"⟩)⟩,
      ⟨"z", some (some ⟨"ephemeral", ""⟩)⟩]⟩
    [⟨"x", none⟩] ⟨"y", some (some ⟨"ephemeral", "1h"⟩)⟩
    [⟨"z", some (some ⟨"ephemeral", ""⟩)⟩] rfl (by decide) rfl
  rw [h]
  rfl

end Claude

namespace Claude

/-! ### Resolver fold lemmas -/

lemma creationFold_spec (minT : Int) (l : List CacheBreakpoint) :
    ∀ s : SimState,
      List.Pairwise (fun a b : CacheBreakpoint => a.tokenCount ≤ b.tokenCount) l →
      (∀ bp ∈ l, minT ≤ bp.tokenCount → s.last ≤ bp.tokenCount) →
      (l.foldl (creationStepGE minT) s).read = s.read ∧
      (l.foldl (creationStepGE minT) s).createTotal =
        s.createTotal + ((l.foldl (creationStepGE minT) s).last - s.last) ∧
      s.last ≤ (l.foldl (creationStepGE minT) s).last ∧
      (∀ B : Int, s.last ≤ B → (∀ bp ∈ l, bp.tokenCount ≤ B) →
        (l.foldl (creationStepGE minT) s).last ≤ B) := by
  induction l with
  | nil => intro s _ _; simp
  | cons bp rest ih =>
      intro s hp hlast
      obtain ⟨hbp, hprest⟩ := List.pairwise_cons.mp hp
      by_cases h : minT ≤ bp.tokenCount
      · have hs1 : creationStepGE minT s bp =
            { s with
              create5m := if bp.ttl = "1h" then s.create5m
                else s.create5m + (bp.tokenCount - s.last),
              create1h := if bp.ttl = "1h" then s.create1h + (bp.tokenCount - s.last)
                else s.create1h,
              createTotal := s.createTotal + (bp.tokenCount - s.last),
              last := bp.tokenCount } := by
          simp [creationStepGE, h]
        have hsl : s.last ≤ bp.tokenCount :=
          hlast bp (List.mem_cons_self bp rest) h
        obtain ⟨ih1, ih2, ih3, ih4⟩ := ih (creationStepGE minT s bp) hprest
          (by intro b hb _; rw [hs1]; exact hbp b hb)
        simp only [List.foldl_cons]
        refine ⟨by rw [ih1, hs1], ?_, ?_, ?_⟩
        · rw [ih2, hs1]
          simp only []
          omega
        · calc s.last ≤ bp.tokenCount := hsl
            _ = (creationStepGE minT s bp).last := by rw [hs1]
            _ ≤ _ := ih3
        · intro B hB hmem
          refine ih4 B ?_ (fun b hb => hmem b (List.mem_cons_of_mem bp hb))
          rw [hs1]
          exact hmem bp (List.mem_cons_self bp rest)
      · have hs1 : creationStepGE minT s bp = s := by simp [creationStepGE, h]
        simp only [List.foldl_cons, hs1]
        obtain ⟨ih1, ih2, ih3, ih4⟩ := ih s hprest
          (fun b hb hb' => hlast b (List.mem_cons_of_mem bp hb) hb')
        exact ⟨ih1, ih2, ih3,
          fun B hB hmem => ih4 B hB (fun b hb => hmem b (List.mem_cons_of_mem bp hb))⟩

lemma creationFold_last_concat (minT : Int) (l : List CacheBreakpoint)
    (s : SimState) (bp : CacheBreakpoint) (h : minT ≤ bp.tokenCount) :
    ((l ++ [bp]).foldl (creationStepGE minT) s).last = bp.tokenCount := by
  rw [List.foldl_append]
  simp [creationStepGE, h]

lemma fuzzyFold_spec (minT : Int) (l : List CacheBreakpoint) :
    ∀ s : SimState,
      (l.foldl (fuzzyStep minT) s).read = s.read ∧
      (l.foldl (fuzzyStep minT) s).createTotal =
        s.createTotal + ((l.foldl (fuzzyStep minT) s).last - s.last) ∧
      s.last ≤ (l.foldl (fuzzyStep minT) s).last ∧
      (∀ B : Int, s.last ≤ B → (∀ bp ∈ l, bp.tokenCount ≤ B) →
        (l.foldl (fuzzyStep minT) s).last ≤ B) := by
  induction l with
  | nil => intro s; simp
  | cons bp rest ih =>
      intro s
      by_cases h : s.last < bp.tokenCount ∧ minT ≤ bp.tokenCount
      · have hs1 : fuzzyStep minT s bp =
            { s with
              create5m := if bp.ttl = "1h" then s.create5m
                else s.create5m + (bp.tokenCount - s.last),
              create1h := if bp.ttl = "1h" then s.create1h + (bp.tokenCount - s.last)
                else s.create1h,
              createTotal := s.createTotal + (bp.tokenCount - s.last),
              last := bp.tokenCount } := by
          simp [fuzzyStep, h]
        obtain ⟨ih1, ih2, ih3, ih4⟩ := ih (fuzzyStep minT s bp)
        simp only [List.foldl_cons]
        refine ⟨by rw [ih1, hs1], ?_, ?_, ?_⟩
        · rw [ih2, hs1]
          simp only []
          omega
        · calc s.last ≤ bp.tokenCount := le_of_lt h.1
            _ = (fuzzyStep minT s bp).last := by rw [hs1]
            _ ≤ _ := ih3
        · intro B hB hmem
          refine ih4 B ?_ (fun b hb => hmem b (List.mem_cons_of_mem bp hb))
          rw [hs1]
          exact hmem bp (List.mem_cons_self bp rest)
      · have hs1 : fuzzyStep minT s bp = s := by simp [fuzzyStep, h]
        simp only [List.foldl_cons, hs1]
        obtain ⟨ih1, ih2, ih3, ih4⟩ := ih s
        exact ⟨ih1, ih2, ih3,
          fun B hB hmem => ih4 B hB (fun b hb => hmem b (List.mem_cons_of_mem bp hb))⟩

/-- When the threaded `prevTokens` equals the state's `last`, the
full-miss loop coincides with the post-hit creation loop. -/
lemma missFold_sync (minT : Int) (l : List CacheBreakpoint) :
    ∀ s : SimState,
      (l.foldl (missStep minT) (s, s.last)).1 = l.foldl (creationStepGE minT) s := by
  induction l with
  | nil => intro s; simp
  | cons bp rest ih =>
      intro s
      by_cases h : minT ≤ bp.tokenCount
      · have h1 : missStep minT (s, s.last) bp =
            (creationStepGE minT s bp, (creationStepGE minT s bp).last) := by
          simp [missStep, creationStepGE, h]
        simp only [List.foldl_cons, h1]
        exact ih (creationStepGE minT s bp)
      · have h1 : missStep minT (s, s.last) bp = (s, s.last) := by
          simp [missStep, h]
        have h2 : creationStepGE minT s bp = s := by simp [creationStepGE, h]
        simp only [List.foldl_cons, h1, h2]
        exact ih s

lemma missFold_read (minT : Int) (l : List CacheBreakpoint) :
    ∀ sp : SimState × Int, (l.foldl (missStep minT) sp).1.read = sp.1.read := by
  induction l with
  | nil => intro sp; simp
  | cons bp rest ih =>
      intro sp
      simp only [List.foldl_cons]
      rw [ih]
      by_cases h : minT ≤ bp.tokenCount <;> simp [missStep, h]

lemma missFold_noop (minT : Int) (l : List CacheBreakpoint)
    (hl : ∀ bp ∈ l, bp.tokenCount < minT) :
    ∀ sp : SimState × Int, l.foldl (missStep minT) sp = sp := by
  induction l with
  | nil => intro sp; simp
  | cons bp rest ih =>
      intro sp
      have hbp : ¬ minT ≤ bp.tokenCount := by
        have := hl bp (List.mem_cons_self bp rest)
        omega
      simp only [List.foldl_cons]
      rw [show missStep minT sp bp = sp by simp [missStep, hbp]]
      exact ih (fun b hb => hl b (List.mem_cons_of_mem bp hb)) sp

/-! ### Exact-scan lemmas -/

lemma lastHit_mem (p : CacheBreakpoint → Bool) (minT : Int) :
    ∀ (l : List CacheBreakpoint) (i : Nat) (bp : CacheBreakpoint),
      lastHit p minT l = some (i, bp) →
      l[i]? = some bp ∧ minT ≤ bp.tokenCount ∧ p bp = true := by
  intro l
  induction l with
  | nil => intro i bp h; simp [lastHit] at h
  | cons hd rest ih =>
      intro i bp h
      unfold lastHit at h
      cases hrest : lastHit p minT rest with
      | some jb =>
          rw [hrest] at h
          obtain ⟨j, b⟩ := jb
          simp only [Option.some.injEq, Prod.mk.injEq] at h
          obtain ⟨hi, hbp⟩ := h
          obtain ⟨h1, h2, h3⟩ := ih j b hrest
          subst hi
          subst hbp
          exact ⟨by simpa using h1, h2, h3⟩
      | none =>
          rw [hrest] at h
          by_cases hc : minT ≤ hd.tokenCount ∧ p hd = true
          · simp only [if_pos hc, Option.some.injEq, Prod.mk.injEq] at h
            obtain ⟨hi, hbp⟩ := h
            subst hi
            subst hbp
            exact ⟨by simp, hc⟩
          · simp [if_neg hc] at h

lemma lastHit_none (p : CacheBreakpoint → Bool) (minT : Int) :
    ∀ l : List CacheBreakpoint,
      (∀ bp ∈ l, ¬(minT ≤ bp.tokenCount ∧ p bp = true)) →
      lastHit p minT l = none := by
  intro l
  induction l with
  | nil => intro _; rfl
  | cons hd rest ih =>
      intro h
      unfold lastHit
      rw [ih (fun b hb => h b (List.mem_cons_of_mem hd hb))]
      simp [h hd (List.mem_cons_self hd rest)]

lemma pairwise_rel_drop {r : CacheBreakpoint → CacheBreakpoint → Prop} :
    ∀ (l : List CacheBreakpoint) (i : Nat) (a : CacheBreakpoint),
      List.Pairwise r l → l[i]? = some a →
      ∀ b ∈ l.drop (i + 1), r a b := by
  intro l
  induction l with
  | nil => intro i a _ h; simp at h
  | cons hd rest ih =>
      intro i a hp h
      obtain ⟨hhd, hprest⟩ := List.pairwise_cons.mp hp
      cases i with
      | zero =>
          simp only [List.getElem?_cons_zero, Option.some.injEq] at h
          subst h
          intro b hb
          exact hhd b (by simpa using hb)
      | succ j =>
          simp only [List.getElem?_cons_succ] at h
          intro b hb
          exact ih j a hprest h b (by simpa using hb)

lemma getLast?_drop_ne_nil {α : Type} :
    ∀ (l : List α) (n : Nat), l.drop n ≠ [] → (l.drop n).getLast? = l.getLast? := by
  intro l
  induction l with
  | nil => intro n h; simp at h
  | cons hd rest ih =>
      intro n h
      cases n with
      | zero => rfl
      | succ m =>
          simp only [List.drop_succ_cons] at h ⊢
          have hrest : rest ≠ [] := by
            intro he
            rw [he] at h
            simp at h
          rw [ih m h]
          cases rest with
          | nil => exact absurd rfl hrest
          | cons b l' => simp [List.getLast?_cons_cons]

end Claude

namespace Claude

lemma rangeMap_getD (n : Nat) (f : Nat → Bool) (i : Nat) :
    ((List.range n).map f).getD i false = if i < n then f i else false := by
  rw [List.getD_eq_getElem?_getD, List.getElem?_map]
  by_cases h : i < n
  · rw [List.getElem?_range h]
    simp [h]
  · rw [List.getElem?_eq_none (by simpa using Nat.le_of_not_lt h)]
    simp [h]

lemma replicate_getD_false (n i : Nat) :
    (List.replicate n false).getD i false = false := by
  rw [List.getD_eq_getElem?_getD, List.getElem?_replicate]
  split <;> simp

/-- **C8.** The per-breakpoint hit flags of `CheckCacheHits` are downward
closed: a hit at breakpoint `i` forces a hit at every `j < i`. -/
theorem c8_hit_flags_downward_closed (tokC tokT : String → Nat)
    (st : FingerprintStore) (digest : String → String) (req : ClaudeRequest)
    (model : String) (totalInputTokens : Int) (i j : Nat) (hij : j < i)
    (hi : (CheckCacheHits tokC tokT st digest req model
      totalInputTokens).breakpointHits.getD i false = true) :
    (CheckCacheHits tokC tokT st digest req model
      totalInputTokens).breakpointHits.getD j false = true := by
  unfold CheckCacheHits at hi ⊢
  by_cases hemp : (ExtractCacheBreakpoints tokC tokT req).isEmpty = true
  · rw [if_pos hemp] at hi
    simp only at hi
    rw [replicate_getD_false] at hi
    exact absurd hi (by simp)
  · rw [if_neg hemp] at hi ⊢
    simp only [] at hi ⊢
    cases hscan : exactPhase (bpLookupHit st digest req model)
        (GetMinCacheableTokens model) (ExtractCacheBreakpoints tokC tokT req) with
    | none =>
        rw [hscan] at hi
        simp only [] at hi
        rw [replicate_getD_false] at hi
        exact absurd hi (by simp)
    | some is =>
        obtain ⟨i0, s⟩ := is
        rw [hscan] at hi
        simp only [] at hi
        rw [rangeMap_getD] at hi
        rw [rangeMap_getD]
        by_cases hlen : i < (ExtractCacheBreakpoints tokC tokT req).length
        · rw [if_pos hlen] at hi
          have hii0 : i ≤ i0 := by simpa using hi
          rw [if_pos (by omega)]
          simp
          omega
        · rw [if_neg hlen] at hi
          exact absurd hi (by simp)

/-- Witness for C8 at a request with two system breakpoints and an
always-hitting store: the longer breakpoint (index 1) is a hit, so the
shorter one (index 0) is forced to be a hit by the theorem. -/
theorem c8_hit_flags_downward_closed_witness :
    (0 : Nat) < 1 ∧
    (CheckCacheHits (fun _ => 10) (fun _ => 10)
      ⟨true, fun _ => some ⟨"h", 0, "5m", 0, 0, "m"⟩, fun _ => none⟩
      (fun _ => "d")
      ⟨none, some (ClaudeSystemContent.blocks
        [⟨"B1", some (some ⟨"ephemeral", ""⟩)⟩,
         ⟨"B2", some (some ⟨"ephemeral", ""⟩)⟩]), []⟩
      "m" 100).breakpointHits.getD 1 false = true ∧
    (CheckCacheHits (fun _ => 10) (fun _ => 10)
      ⟨true, fun _ => some ⟨"h", 0, "5m", 0, 0, "m"⟩, fun _ => none⟩
      (fun _ => "d")
      ⟨none, some (ClaudeSystemContent.blocks
        [⟨"B1", some (some ⟨"ephemeral", ""⟩)⟩,
         ⟨"B2", some (some ⟨"ephemeral", ""⟩)⟩]), []⟩
      "m" 100).breakpointHits.getD 0 false = true :=
  ⟨by decide, by decide,
    c8_hit_flags_downward_closed (fun _ => 10) (fun _ => 10)
      ⟨true, fun _ => some ⟨"h", 0, "5m", 0, 0, "m"⟩, fun _ => none⟩
      (fun _ => "d")
      ⟨none, some (ClaudeSystemContent.blocks
        [⟨"B1", some (some ⟨"ephemeral", ""⟩)⟩,
         ⟨"B2", some (some ⟨"ephemeral", ""⟩)⟩]), []⟩
      "m" 100 1 0 (by decide) (by decide)⟩

end Claude

namespace Claude

lemma exactPhase_some (p : CacheBreakpoint → Bool) (minT : Int)
    (bps : List CacheBreakpoint) (i : Nat) (s : SimState)
    (h : exactPhase p minT bps = some (i, s)) :
    ∃ bp, lastHit p minT bps = some (i, bp) ∧
      s = (bps.drop (i + 1)).foldl (creationStepGE minT)
        ⟨bp.tokenCount, 0, 0, 0, bp.tokenCount⟩ := by
  unfold exactPhase at h
  cases hscan : lastHit p minT bps with
  | none => rw [hscan] at h; simp at h
  | some ib =>
      obtain ⟨j, bp⟩ := ib
      rw [hscan] at h
      simp only [Option.some.injEq, Prod.mk.injEq] at h
      obtain ⟨hi, hs⟩ := h
      subst hi
      exact ⟨bp, rfl, hs.symm⟩

lemma getFuzzyEntry_found (st : FingerprintStore) (model systemHash : String)
    (h : (GetFuzzyEntry st model systemHash).2 = true) :
    st.fuzzyGet (GetFuzzyCacheKey model systemHash) =
      some (GetFuzzyEntry st model systemHash).1 := by
  unfold GetFuzzyEntry at h ⊢
  by_cases hd : st.redisEnabled = false ∨ systemHash = ""
  · rw [if_pos hd] at h
    simp at h
  · rw [if_neg hd] at h ⊢
    cases hf : st.fuzzyGet (GetFuzzyCacheKey model systemHash) with
    | none =>
        rw [hf] at h
        simp at h
    | some t =>
        simp

lemma simPhase1_spec (p : CacheBreakpoint → Bool) (minT : Int)
    (fuzzy : Int × Bool) (bps : List CacheBreakpoint) (B : Int)
    (hmin : minT = 5)
    (hpos : fuzzy.2 = true → 0 < fuzzy.1)
    (hpair : List.Pairwise
      (fun a b : CacheBreakpoint => a.tokenCount ≤ b.tokenCount) bps)
    (hnn : ∀ bp ∈ bps, 0 ≤ bp.tokenCount)
    (hub : ∀ bp ∈ bps, bp.tokenCount ≤ B)
    (hB : 0 ≤ B) :
    (simPhase1 p minT fuzzy bps).read + (simPhase1 p minT fuzzy bps).createTotal =
      (simPhase1 p minT fuzzy bps).last ∧
    0 ≤ (simPhase1 p minT fuzzy bps).read ∧
    0 ≤ (simPhase1 p minT fuzzy bps).createTotal ∧
    0 ≤ (simPhase1 p minT fuzzy bps).last ∧
    (simPhase1 p minT fuzzy bps).last ≤ B ∧
    ((simPhase1 p minT fuzzy bps).read = 0 →
      simPhase1 p minT fuzzy bps = initSimState) := by
  unfold simPhase1
  cases hscan : exactPhase p minT bps with
  | some is =>
      obtain ⟨i, s⟩ := is
      simp only []
      obtain ⟨bp, hlh, hs⟩ := exactPhase_some p minT bps i s hscan
      obtain ⟨hget, hminbp, _⟩ := lastHit_mem p minT bps i bp hlh
      have hmem : bp ∈ bps := List.getElem?_mem hget
      have hdrop_pair := hpair.sublist (List.drop_sublist (i + 1) bps)
      have hdrop_rel := pairwise_rel_drop bps i bp hpair hget
      obtain ⟨f1, f2, f3, f4⟩ := creationFold_spec minT (bps.drop (i + 1))
        ⟨bp.tokenCount, 0, 0, 0, bp.tokenCount⟩
        hdrop_pair (fun b hb _ => hdrop_rel b hb)
      rw [← hs] at f1 f2 f3 f4
      simp only [] at f1 f2 f3 f4
      have hbp0 : 0 ≤ bp.tokenCount := hnn bp hmem
      have hbpB : bp.tokenCount ≤ B := hub bp hmem
      have hlastB : s.last ≤ B := f4 B hbpB
        (fun b hb => hub b (List.mem_of_mem_drop hb))
      refine ⟨by omega, by omega, by omega, by omega, hlastB, ?_⟩
      intro hr
      rw [f1] at hr
      omega
  | none =>
      cases bps with
      | nil => exact ⟨rfl, le_refl 0, le_refl 0, le_refl 0, hB, fun _ => rfl⟩
      | cons bp0 rest =>
          simp only []
          by_cases hcond : fuzzy.2 = true ∧ minT ≤ bp0.tokenCount
          · rw [if_pos hcond]
            have hf1 : 0 < fuzzy.1 := hpos hcond.1
            have hbp0 : 0 ≤ bp0.tokenCount := hnn bp0 (List.mem_cons_self bp0 rest)
            have hbp0B : bp0.tokenCount ≤ B := hub bp0 (List.mem_cons_self bp0 rest)
            set r : Int := if bp0.tokenCount < fuzzy.1 then bp0.tokenCount else fuzzy.1 with hr
            have hrpos : 0 < r := by rw [hr]; split <;> omega
            have hrbp0 : r ≤ bp0.tokenCount := by rw [hr]; split <;> omega
            obtain ⟨f1, f2, f3, f4⟩ := fuzzyFold_spec minT (bp0 :: rest)
              (⟨r, 0, 0, 0, r⟩ : SimState)
            simp only [] at f1 f2 f3 f4
            have hlastB := f4 B (by omega) hub
            refine ⟨by omega, by omega, by omega, by omega, hlastB, ?_⟩
            intro hread
            rw [f1] at hread
            omega
          · rw [if_neg hcond]
            exact ⟨rfl, le_refl 0, le_refl 0, le_refl 0, hB, fun _ => rfl⟩

lemma simPhase3_spec (minT : Int) (bps : List CacheBreakpoint) (s1 : SimState)
    (B : Int)
    (hpair : List.Pairwise
      (fun a b : CacheBreakpoint => a.tokenCount ≤ b.tokenCount) bps)
    (hnn : ∀ bp ∈ bps, 0 ≤ bp.tokenCount)
    (hub : ∀ bp ∈ bps, bp.tokenCount ≤ B)
    (hB : 0 ≤ B)
    (hsum : s1.read + s1.createTotal = s1.last)
    (hr : 0 ≤ s1.read) (hc : 0 ≤ s1.createTotal) (hl : 0 ≤ s1.last)
    (hlB : s1.last ≤ B)
    (hinit : s1.read = 0 → s1 = initSimState) :
    (simPhase3 minT bps s1).read + (simPhase3 minT bps s1).createTotal =
      (simPhase3 minT bps s1).last ∧
    0 ≤ (simPhase3 minT bps s1).read ∧
    0 ≤ (simPhase3 minT bps s1).createTotal ∧
    0 ≤ (simPhase3 minT bps s1).last ∧
    (simPhase3 minT bps s1).last ≤ B := by
  unfold simPhase3
  by_cases hcond : s1.read = 0 ∧ bps.isEmpty = false
  · rw [if_pos hcond]
    rw [hinit hcond.1]
    have hsync : (bps.foldl (missStep minT) (initSimState, 0)).1 =
        bps.foldl (creationStepGE minT) initSimState := by
      have h := missFold_sync minT bps initSimState
      rw [show initSimState.last = (0 : Int) from rfl] at h
      exact h
    rw [hsync]
    obtain ⟨f1, f2, f3, f4⟩ := creationFold_spec minT bps initSimState hpair
      (fun b hb _ => by
        rw [show initSimState.last = (0 : Int) from rfl]
        exact hnn b hb)
    rw [show initSimState.read = (0 : Int) from rfl] at f1
    rw [show initSimState.last = (0 : Int) from rfl] at f2 f3 f4
    rw [show initSimState.createTotal = (0 : Int) from rfl] at f2
    have hlastB := f4 B hB hub
    exact ⟨by omega, by omega, by omega, by omega, hlastB⟩
  · rw [if_neg hcond]
    exact ⟨hsum, hr, hc, hl, hlB⟩

end Claude

namespace Claude

lemma localCacheAccounting_state_eq (tokC tokT : String → Nat)
    (st : FingerprintStore) (digest : String → String) (req : ClaudeRequest)
    (model : String) :
    (localCacheAccounting tokC tokT st digest req model).state =
      simPhase3 (GetMinCacheableTokens model)
        (ExtractCacheBreakpointsWithTotal tokC tokT req).1
        (simPhase1 (bpLookupHit st digest req model)
          (GetMinCacheableTokens model)
          (GetFuzzyEntry st model (CalculateSystemHash digest req model))
          (ExtractCacheBreakpointsWithTotal tokC tokT req).1) := rfl

lemma localCacheAccounting_localTotal (tokC tokT : String → Nat)
    (st : FingerprintStore) (digest : String → String) (req : ClaudeRequest)
    (model : String) :
    (localCacheAccounting tokC tokT st digest req model).localTotal =
      (ExtractCacheBreakpointsWithTotal tokC tokT req).2.1 := rfl

lemma localCacheAccounting_toolsTokens (tokC tokT : String → Nat)
    (st : FingerprintStore) (digest : String → String) (req : ClaudeRequest)
    (model : String) :
    (localCacheAccounting tokC tokT st digest req model).toolsTokens =
      (ExtractCacheBreakpointsWithTotal tokC tokT req).2.2 := rfl

lemma localCacheAccounting_breakpoints (tokC tokT : String → Nat)
    (st : FingerprintStore) (digest : String → String) (req : ClaudeRequest)
    (model : String) :
    (localCacheAccounting tokC tokT st digest req model).breakpoints =
      (ExtractCacheBreakpointsWithTotal tokC tokT req).1 := rfl

/-- The non-cached figure always equals `localTotal - lastAccounted`,
floored at zero: the `toolsTokens` added back and the `toolsTokens`
subtracted inside `cacheableTotal` cancel. -/
lemma localCacheAccounting_nonCache (tokC tokT : String → Nat)
    (st : FingerprintStore) (digest : String → String) (req : ClaudeRequest)
    (model : String) :
    (localCacheAccounting tokC tokT st digest req model).nonCache =
      max 0 ((localCacheAccounting tokC tokT st digest req model).localTotal -
        (localCacheAccounting tokC tokT st digest req model).state.last) := by
  unfold localCacheAccounting
  simp only []
  split <;> omega

lemma localCacheAccounting_sum (tokC tokT : String → Nat)
    (st : FingerprintStore) (digest : String → String) (req : ClaudeRequest)
    (model : String)
    (hpos : ∀ k t, st.fuzzyGet k = some t → 0 < t) :
    (localCacheAccounting tokC tokT st digest req model).state.read +
      (localCacheAccounting tokC tokT st digest req model).state.createTotal =
      (localCacheAccounting tokC tokT st digest req model).state.last ∧
    0 ≤ (localCacheAccounting tokC tokT st digest req model).state.read ∧
    0 ≤ (localCacheAccounting tokC tokT st digest req model).state.createTotal ∧
    0 ≤ (localCacheAccounting tokC tokT st digest req model).state.last ∧
    (localCacheAccounting tokC tokT st digest req model).state.last ≤
      (localCacheAccounting tokC tokT st digest req model).localTotal := by
  obtain ⟨hbd, hpair, htools, hcache⟩ := extractBps_spec tokC tokT req
  have hpos' : (GetFuzzyEntry st model
      (CalculateSystemHash digest req model)).2 = true →
      0 < (GetFuzzyEntry st model (CalculateSystemHash digest req model)).1 :=
    fun h => hpos _ _ (getFuzzyEntry_found st model _ h)
  obtain ⟨p1, p2, p3, p4, p5, p6⟩ := simPhase1_spec
    (bpLookupHit st digest req model) (GetMinCacheableTokens model)
    (GetFuzzyEntry st model (CalculateSystemHash digest req model))
    (ExtractCacheBreakpointsWithTotal tokC tokT req).1
    ((ExtractCacheBreakpointsWithTotal tokC tokT req).2.1 -
      (ExtractCacheBreakpointsWithTotal tokC tokT req).2.2)
    (getMinCacheableTokens_eq model) hpos' hpair
    (fun bp h => (hbd bp h).1) (fun bp h => (hbd bp h).2) hcache
  obtain ⟨q1, q2, q3, q4, q5⟩ := simPhase3_spec (GetMinCacheableTokens model)
    (ExtractCacheBreakpointsWithTotal tokC tokT req).1
    (simPhase1 (bpLookupHit st digest req model) (GetMinCacheableTokens model)
      (GetFuzzyEntry st model (CalculateSystemHash digest req model))
      (ExtractCacheBreakpointsWithTotal tokC tokT req).1)
    ((ExtractCacheBreakpointsWithTotal tokC tokT req).2.1 -
      (ExtractCacheBreakpointsWithTotal tokC tokT req).2.2)
    hpair (fun bp h => (hbd bp h).1) (fun bp h => (hbd bp h).2) hcache
    p1 p2 p3 p4 p5 p6
  rw [localCacheAccounting_state_eq, localCacheAccounting_localTotal]
  exact ⟨q1, q2, q3, q4, by omega⟩

end Claude

namespace Claude

lemma extractCacheBreakpoints_eq (tokC tokT : String → Nat) (req : ClaudeRequest) :
    ExtractCacheBreakpoints tokC tokT req =
      (ExtractCacheBreakpointsWithTotal tokC tokT req).1 := rfl

/-- `CheckCacheHits` accounting: when the last breakpoint clears the
minimum-cacheable threshold and the upstream total is at least its token
count, read + creation + remaining-input exactly partition the upstream
total, and each bucket is non-negative. -/
lemma checkCacheHits_sum (tokC tokT : String → Nat) (st : FingerprintStore)
    (digest : String → String) (req : ClaudeRequest) (model : String)
    (total : Int)
    (h1 : GetMinCacheableTokens model ≤
      ((ExtractCacheBreakpoints tokC tokT req).getLastD dfltBp).tokenCount)
    (h2 : ((ExtractCacheBreakpoints tokC tokT req).getLastD dfltBp).tokenCount ≤
      total) :
    (CheckCacheHits tokC tokT st digest req model total).cacheReadTokens +
      (CheckCacheHits tokC tokT st digest req model total).cacheCreationTokens +
      (CheckCacheHits tokC tokT st digest req model total).inputTokens = total ∧
    0 ≤ (CheckCacheHits tokC tokT st digest req model total).cacheReadTokens ∧
    0 ≤ (CheckCacheHits tokC tokT st digest req model total).cacheCreationTokens ∧
    0 ≤ (CheckCacheHits tokC tokT st digest req model total).inputTokens := by
  obtain ⟨hbd, hpair, htools, hcache⟩ := extractBps_spec tokC tokT req
  rw [← extractCacheBreakpoints_eq] at hbd hpair
  unfold CheckCacheHits
  by_cases hemp : (ExtractCacheBreakpoints tokC tokT req).isEmpty = true
  · rw [if_pos hemp]
    have hnil : ExtractCacheBreakpoints tokC tokT req = [] :=
      List.isEmpty_iff.mp hemp
    rw [hnil] at h2
    have h2' : (0 : Int) ≤ total := by
      simpa [dfltBp] using h2
    simp only []
    refine ⟨by omega, le_refl 0, le_refl 0, by omega⟩
  · rw [if_neg hemp]
    simp only []
    have hne : ExtractCacheBreakpoints tokC tokT req ≠ [] := by
      intro h
      rw [h] at hemp
      simp at hemp
    obtain ⟨L, b, hLb⟩ :=
      (List.eq_nil_or_concat (ExtractCacheBreakpoints tokC tokT req)).resolve_left hne
    rw [List.concat_eq_append] at hLb
    have hlastD : (ExtractCacheBreakpoints tokC tokT req).getLastD dfltBp = b := by
      rw [hLb]
      exact List.getLastD_concat _ _ _
    rw [hlastD] at h1 h2
    have hmemb : b ∈ ExtractCacheBreakpoints tokC tokT req := by
      rw [hLb]
      simp
    have hb0 : 0 ≤ b.tokenCount := (hbd b hmemb).1
    have hinput : (if total - ((ExtractCacheBreakpoints tokC tokT req).getLastD
        dfltBp).tokenCount < 0 then 0
        else total - ((ExtractCacheBreakpoints tokC tokT req).getLastD
          dfltBp).tokenCount) = total - b.tokenCount := by
      rw [hlastD, if_neg (by omega)]
    cases hscan : exactPhase (bpLookupHit st digest req model)
        (GetMinCacheableTokens model) (ExtractCacheBreakpoints tokC tokT req) with
    | none =>
        simp only [hinput]
        have hsync : ((ExtractCacheBreakpoints tokC tokT req).foldl
            (missStep (GetMinCacheableTokens model)) (initSimState, 0)).1 =
            (ExtractCacheBreakpoints tokC tokT req).foldl
              (creationStepGE (GetMinCacheableTokens model)) initSimState := by
          have h := missFold_sync (GetMinCacheableTokens model)
            (ExtractCacheBreakpoints tokC tokT req) initSimState
          rw [show initSimState.last = (0 : Int) from rfl] at h
          exact h
        rw [hsync]
        have hlast : ((ExtractCacheBreakpoints tokC tokT req).foldl
            (creationStepGE (GetMinCacheableTokens model)) initSimState).last =
            b.tokenCount := by
          rw [hLb]
          exact creationFold_last_concat _ L initSimState b h1
        obtain ⟨f1, f2, f3, f4⟩ := creationFold_spec (GetMinCacheableTokens model)
          (ExtractCacheBreakpoints tokC tokT req) initSimState hpair
          (fun bp hbp _ => by
            rw [show initSimState.last = (0 : Int) from rfl]
            exact (hbd bp hbp).1)
        rw [show initSimState.last = (0 : Int) from rfl] at f2 f3
        rw [show initSimState.createTotal = (0 : Int) from rfl] at f2
        rw [hlast] at f2 f3
        refine ⟨by omega, le_refl 0, by omega, by omega⟩
    | some is =>
        obtain ⟨i, s⟩ := is
        simp only [hinput]
        obtain ⟨bp, hlh, hs⟩ := exactPhase_some _ _ _ i s hscan
        obtain ⟨hget, hminbp, _⟩ :=
          lastHit_mem _ _ (ExtractCacheBreakpoints tokC tokT req) i bp hlh
        have hmem : bp ∈ ExtractCacheBreakpoints tokC tokT req :=
          List.getElem?_mem hget
        have hbp0 : 0 ≤ bp.tokenCount := (hbd bp hmem).1
        have hilen : i < (ExtractCacheBreakpoints tokC tokT req).length := by
          by_contra hc
          rw [List.getElem?_eq_none (by omega)] at hget
          exact absurd hget (by simp)
        have hlast : s.last = b.tokenCount := by
          by_cases hiL : i + 1 ≤ L.length
          · have hdrop : (ExtractCacheBreakpoints tokC tokT req).drop (i + 1) =
                L.drop (i + 1) ++ [b] := by
              rw [hLb]
              exact List.drop_append_of_le_length hiL
            rw [hs, hdrop]
            exact creationFold_last_concat _ _ _ b h1
          · have hiL' : i = L.length := by
              rw [hLb] at hilen
              simp at hilen
              omega
            have hbpb : bp = b := by
              rw [hLb, hiL'] at hget
              rw [List.getElem?_concat_length] at hget
              exact (Option.some.inj hget).symm
            have hdrop : (ExtractCacheBreakpoints tokC tokT req).drop (i + 1) =
                [] := by
              apply List.drop_eq_nil_of_le
              rw [hLb, hiL']
              simp
            rw [hs, hdrop]
            simp [hbpb]
        have hdrop_pair := hpair.sublist
          (List.drop_sublist (i + 1) (ExtractCacheBreakpoints tokC tokT req))
        have hdrop_rel := pairwise_rel_drop _ i bp hpair hget
        obtain ⟨f1, f2, f3, f4⟩ := creationFold_spec (GetMinCacheableTokens model)
          ((ExtractCacheBreakpoints tokC tokT req).drop (i + 1))
          ⟨bp.tokenCount, 0, 0, 0, bp.tokenCount⟩
          hdrop_pair (fun c hc _ => hdrop_rel c hc)
        rw [← hs] at f1 f2 f3
        simp only [] at f1 f2 f3
        rw [hlast] at f2 f3
        refine ⟨by omega, by omega, by omega, by omega⟩

end Claude

namespace Claude

lemma simPhase1_eq_init (p : CacheBreakpoint → Bool) (minT : Int)
    (fz : Int × Bool) (bps : List CacheBreakpoint)
    (hscan : exactPhase p minT bps = none) (hfz : fz.2 = false) :
    simPhase1 p minT fz bps = initSimState := by
  unfold simPhase1
  rw [hscan]
  cases bps with
  | nil => rfl
  | cons bp0 rest =>
      simp only []
      rw [if_neg (by simp [hfz])]

lemma simPhase3_read (minT : Int) (bps : List CacheBreakpoint) (s1 : SimState) :
    (simPhase3 minT bps s1).read = s1.read := by
  unfold simPhase3
  split
  · rw [missFold_read]
  · rfl

/-- **C2 counterexample.** With Redis disabled and a request holding one
above-threshold breakpoint, the resolver still attributes 50 creation
tokens and `applyLocalCacheSimulation` overwrites the usage record: the
claim's "zero creation tokens and the record untouched" is false. -/
theorem c2_store_outage_counterexample :
    applyLocalCacheSimulation tokFifty tokFifty stDisabled digestD reqOneSysBp
      "m" usageW ≠ usageW ∧
    (applyLocalCacheSimulation tokFifty tokFifty stDisabled digestD reqOneSysBp
      "m" usageW).promptTokensDetails.cachedCreationTokens = 50 ∧
    (localCacheAccounting tokFifty tokFifty stDisabled digestD reqOneSysBp
      "m").state.read = 0 := by
  refine ⟨?_, by decide, by decide⟩
  intro h
  have := congrArg (fun u => u.promptTokensDetails.cachedCreationTokens) h
  revert this
  decide

/-- **C2 (amended).** With the store unavailable every exact and fuzzy
read misses, so the locally computed cache-read figure is zero for every
request; and when additionally no breakpoint clears the minimum-cacheable
threshold, no creation is attributed and the usage record is returned
unchanged.  (Creation tokens are computed locally without the store, so a
request with an above-threshold breakpoint does get its creation fields
overwritten — see the counterexample.) -/
theorem c2_store_outage_fail_safe (tokC tokT : String → Nat)
    (st : FingerprintStore) (digest : String → String) (req : ClaudeRequest)
    (model : String) (usage : Usage) (hoff : st.redisEnabled = false) :
    (localCacheAccounting tokC tokT st digest req model).state.read = 0 ∧
    ((∀ bp ∈ (ExtractCacheBreakpointsWithTotal tokC tokT req).1,
        bp.tokenCount < GetMinCacheableTokens model) →
      applyLocalCacheSimulation tokC tokT st digest req model usage = usage) := by
  have hplm : ∀ bp, bpLookupHit st digest req model bp = false := by
    intro bp
    unfold bpLookupHit GetCacheEntry
    rw [hoff]
    simp
  have hscan : exactPhase (bpLookupHit st digest req model)
      (GetMinCacheableTokens model)
      (ExtractCacheBreakpointsWithTotal tokC tokT req).1 = none := by
    unfold exactPhase
    rw [lastHit_none _ _ _ (fun bp _ => by simp [hplm bp])]
  have hfz : (GetFuzzyEntry st model (CalculateSystemHash digest req model)).2 =
      false := by
    unfold GetFuzzyEntry
    rw [if_pos (Or.inl hoff)]
  have hs1 := simPhase1_eq_init (bpLookupHit st digest req model)
    (GetMinCacheableTokens model)
    (GetFuzzyEntry st model (CalculateSystemHash digest req model))
    (ExtractCacheBreakpointsWithTotal tokC tokT req).1 hscan hfz
  constructor
  · rw [localCacheAccounting_state_eq, hs1, simPhase3_read]
    exact rfl
  · intro hbelow
    have hs2 : (localCacheAccounting tokC tokT st digest req model).state =
        initSimState := by
      rw [localCacheAccounting_state_eq, hs1]
      unfold simPhase3
      split
      · rw [missFold_noop _ _ hbelow]
      · rfl
    unfold applyLocalCacheSimulation
    simp only []
    by_cases hT : (localCacheAccounting tokC tokT st digest req model).localTotal = 0
    · rw [if_pos hT]
    · rw [if_neg hT, if_pos ⟨by rw [hs2]; rfl, by rw [hs2]; rfl⟩]

/-- Witness for C2: disabled store and a single below-threshold (3 < 5)
breakpoint: zero read and the usage record is returned unchanged. -/
theorem c2_store_outage_fail_safe_witness :
    (localCacheAccounting tokThree tokThree stDisabled digestD reqOneSysBp
      "m").state.read = 0 ∧
    applyLocalCacheSimulation tokThree tokThree stDisabled digestD reqOneSysBp
      "m" usageW = usageW := by
  have h := c2_store_outage_fail_safe tokThree tokThree stDisabled digestD
    reqOneSysBp "m" usageW rfl
  exact ⟨h.1, h.2 (by decide)⟩

/-- **C3 counterexample.** With 10 tool tokens and one 50-token system
breakpoint (full miss), the written fresh-input figure is 10 =
`totalLocal - lastAccounted`, while the claim's formula
`totalLocal - toolsTokens - lastAccounted` floored at zero gives 0. -/
theorem c3_fresh_input_counterexample :
    (applyLocalCacheSimulation tokToolTen tokToolTen stDisabled digestD
      reqToolSysBp "m" usageW).promptTokens = 10 ∧
    max 0 ((localCacheAccounting tokToolTen tokToolTen stDisabled digestD
        reqToolSysBp "m").localTotal -
      (localCacheAccounting tokToolTen tokToolTen stDisabled digestD
        reqToolSysBp "m").toolsTokens -
      (localCacheAccounting tokToolTen tokToolTen stDisabled digestD
        reqToolSysBp "m").state.last) = 0 := by
  constructor <;> decide

/-- **C3 (amended).** In every branch the computed non-cached figure is
`totalLocalTokens - lastAccountedCacheTokens` floored at zero (tools
tokens count as fresh input: the `- toolsTokens` in the claim is not in
the code), and the prompt-token field is either left unchanged or set to
exactly that figure. -/
theorem c3_fresh_input_formula (tokC tokT : String → Nat)
    (st : FingerprintStore) (digest : String → String) (req : ClaudeRequest)
    (model : String) (usage : Usage) :
    (localCacheAccounting tokC tokT st digest req model).nonCache =
      max 0 ((localCacheAccounting tokC tokT st digest req model).localTotal -
        (localCacheAccounting tokC tokT st digest req model).state.last) ∧
    ((applyLocalCacheSimulation tokC tokT st digest req model usage).promptTokens =
        usage.promptTokens ∨
      (applyLocalCacheSimulation tokC tokT st digest req model usage).promptTokens =
        (localCacheAccounting tokC tokT st digest req model).nonCache) := by
  refine ⟨localCacheAccounting_nonCache tokC tokT st digest req model, ?_⟩
  unfold applyLocalCacheSimulation
  simp only []
  split
  · exact Or.inl rfl
  · split
    · exact Or.inl rfl
    · split
      · exact Or.inr rfl
      · exact Or.inl rfl

/-- **C6.** The reconciler never writes a non-positive fresh-input
figure: the prompt-token field is either left at its upstream value or
overwritten with a positive figure; in particular a computed non-cached
figure of zero leaves the upstream field unchanged. -/
theorem c6_prompt_override_conservative (tokC tokT : String → Nat)
    (st : FingerprintStore) (digest : String → String) (req : ClaudeRequest)
    (model : String) (usage : Usage) :
    ((localCacheAccounting tokC tokT st digest req model).nonCache = 0 →
      (applyLocalCacheSimulation tokC tokT st digest req model
        usage).promptTokens = usage.promptTokens) ∧
    ((applyLocalCacheSimulation tokC tokT st digest req model
        usage).promptTokens = usage.promptTokens ∨
      0 < (applyLocalCacheSimulation tokC tokT st digest req model
        usage).promptTokens) := by
  unfold applyLocalCacheSimulation
  simp only []
  split
  · exact ⟨fun _ => rfl, Or.inl rfl⟩
  · split
    · exact ⟨fun _ => rfl, Or.inl rfl⟩
    · by_cases hnc : 0 < (localCacheAccounting tokC tokT st digest req model).nonCache
      · rw [if_pos hnc]
        exact ⟨fun h0 => absurd h0 (by omega), Or.inr hnc⟩
      · rw [if_neg hnc]
        exact ⟨fun _ => rfl, Or.inl rfl⟩

/-- Witness for C6: a fully-cached request (non-cached figure 0) retains
the upstream prompt-token figure 77. -/
theorem c6_prompt_override_conservative_witness :
    (localCacheAccounting tokFifty tokFifty stDisabled digestD reqOneSysBp
      "m").nonCache = 0 ∧
    (applyLocalCacheSimulation tokFifty tokFifty stDisabled digestD reqOneSysBp
      "m" usageW).promptTokens = usageW.promptTokens :=
  ⟨by decide,
    (c6_prompt_override_conservative tokFifty tokFifty stDisabled digestD
      reqOneSysBp "m" usageW).1 (by decide)⟩

end Claude

namespace Claude

/-- **C1 counterexample.** A reachable store state (an exact miss plus a
stored fuzzy token count of 0, which a previous full miss writes when its
first breakpoint estimated to 0 tokens) makes the fuzzy creation loop and
the full-miss creation loop both run: creation is charged twice (100)
against a local total of 50, breaking the partition identity. -/
theorem c1_no_double_counting_counterexample :
    ¬((localCacheAccounting tokFifty tokFifty stFuzzyZero digestD reqOneSysBp
        "m").state.read +
      (localCacheAccounting tokFifty tokFifty stFuzzyZero digestD reqOneSysBp
        "m").state.createTotal +
      (localCacheAccounting tokFifty tokFifty stFuzzyZero digestD reqOneSysBp
        "m").nonCache =
      (localCacheAccounting tokFifty tokFifty stFuzzyZero digestD reqOneSysBp
        "m").localTotal) ∧
    (localCacheAccounting tokFifty tokFifty stFuzzyZero digestD reqOneSysBp
      "m").state.createTotal = 100 ∧
    (localCacheAccounting tokFifty tokFifty stFuzzyZero digestD reqOneSysBp
      "m").localTotal = 50 := by
  refine ⟨?_, by decide, by decide⟩
  decide

/-- **C1 (amended).** The partition identity holds for
`applyLocalCacheSimulation`'s accounting provided every fuzzy entry in
the store carries a positive token count (a stored 0 double-counts
creation, see the counterexample): read + creation + fresh equals the
local total and each bucket is non-negative.  For `CheckCacheHits`, whose
remaining-input figure is computed against the upstream-reported total
and the literal last breakpoint, the identity additionally needs the last
breakpoint to clear the minimum-cacheable threshold and the upstream
total to be at least its token count. -/
theorem c1_no_double_counting (tokC tokT : String → Nat)
    (st : FingerprintStore) (digest : String → String) (req : ClaudeRequest)
    (model : String)
    (hpos : ∀ k t, st.fuzzyGet k = some t → 0 < t) :
    ((localCacheAccounting tokC tokT st digest req model).state.read +
        (localCacheAccounting tokC tokT st digest req model).state.createTotal +
        (localCacheAccounting tokC tokT st digest req model).nonCache =
        (localCacheAccounting tokC tokT st digest req model).localTotal ∧
      0 ≤ (localCacheAccounting tokC tokT st digest req model).state.read ∧
      0 ≤ (localCacheAccounting tokC tokT st digest req model).state.createTotal ∧
      0 ≤ (localCacheAccounting tokC tokT st digest req model).nonCache) ∧
    (∀ total : Int,
      GetMinCacheableTokens model ≤
        ((ExtractCacheBreakpoints tokC tokT req).getLastD dfltBp).tokenCount →
      ((ExtractCacheBreakpoints tokC tokT req).getLastD dfltBp).tokenCount ≤
        total →
      (CheckCacheHits tokC tokT st digest req model total).cacheReadTokens +
        (CheckCacheHits tokC tokT st digest req model total).cacheCreationTokens +
        (CheckCacheHits tokC tokT st digest req model total).inputTokens = total ∧
      0 ≤ (CheckCacheHits tokC tokT st digest req model total).cacheReadTokens ∧
      0 ≤ (CheckCacheHits tokC tokT st digest req model total).cacheCreationTokens ∧
      0 ≤ (CheckCacheHits tokC tokT st digest req model total).inputTokens) := by
  constructor
  · obtain ⟨s1, s2, s3, s4, s5⟩ :=
      localCacheAccounting_sum tokC tokT st digest req model hpos
    rw [localCacheAccounting_nonCache]
    exact ⟨by omega, s2, s3, by omega⟩
  · intro total h1 h2
    exact checkCacheHits_sum tokC tokT st digest req model total h1 h2

/-- Witness for C1: a fuzzy entry of 30 positive tokens; the accounting
partition holds, and `CheckCacheHits` partitions an upstream total of
100. -/
theorem c1_no_double_counting_witness :
    ((localCacheAccounting tokFifty tokFifty stFuzzyThirty digestD reqOneSysBp
        "m").state.read +
      (localCacheAccounting tokFifty tokFifty stFuzzyThirty digestD reqOneSysBp
        "m").state.createTotal +
      (localCacheAccounting tokFifty tokFifty stFuzzyThirty digestD reqOneSysBp
        "m").nonCache =
      (localCacheAccounting tokFifty tokFifty stFuzzyThirty digestD reqOneSysBp
        "m").localTotal) ∧
    ((CheckCacheHits tokFifty tokFifty stFuzzyThirty digestD reqOneSysBp "m"
        100).cacheReadTokens +
      (CheckCacheHits tokFifty tokFifty stFuzzyThirty digestD reqOneSysBp "m"
        100).cacheCreationTokens +
      (CheckCacheHits tokFifty tokFifty stFuzzyThirty digestD reqOneSysBp "m"
        100).inputTokens = 100) := by
  have h := c1_no_double_counting tokFifty tokFifty stFuzzyThirty digestD
    reqOneSysBp "m"
    (fun k t ht => by
      have h30 := Option.some.inj ht
      omega)
  exact ⟨h.1.1, (h.2 100 (by decide) (by decide)).1⟩

/-- **C4 counterexample.** The TTL class `"30m"` (any value other than
`"1h"`) is stored with the 5-minute expiry, not the 1-hour expiry the
claim asserts for every non-`"5m"` class. -/
theorem c4_ttl_mapping_counterexample :
    (StoreCacheEntry stEmpty 0 ⟨"h", 100, "30m", 0, 0, "m"⟩).map
      (fun w => w.2.2) = some TTL5m ∧
    TTL5m ≠ TTL1h := by
  constructor <;> decide

/-- **C4 (amended).** For both exact and fuzzy entries the TTL class
`"1h"` maps to a 1-hour duration and every other class (including
`"5m"`) maps to a 5-minute duration; the exact entry's expiry timestamp
is its creation time plus that duration. -/
theorem c4_ttl_mapping (st : FingerprintStore) (now : Nat) (e : CacheEntry)
    (model sh : String) (tc : Int) (ts : String)
    (hen : st.redisEnabled = true) (hsh : sh ≠ "") :
    (e.ttl = "1h" →
      (StoreCacheEntry st now e).map (fun w => w.2.2) = some TTL1h ∧
      (StoreCacheEntry st now e).map (fun w => w.2.1.expiresAt) =
        some (now + TTL1h)) ∧
    (e.ttl ≠ "1h" →
      (StoreCacheEntry st now e).map (fun w => w.2.2) = some TTL5m ∧
      (StoreCacheEntry st now e).map (fun w => w.2.1.expiresAt) =
        some (now + TTL5m)) ∧
    (ts = "1h" →
      (StoreFuzzyEntry st model sh tc ts).map (fun w => w.2.2.2) = some TTL1h) ∧
    (ts ≠ "1h" →
      (StoreFuzzyEntry st model sh tc ts).map (fun w => w.2.2.2) = some TTL5m) := by
  refine ⟨fun h => ?_, fun h => ?_, fun h => ?_, fun h => ?_⟩
  · constructor <;> simp [StoreCacheEntry, hen, h]
  · constructor <;> simp [StoreCacheEntry, hen, h]
  · simp [StoreFuzzyEntry, hen, hsh, h]
  · simp [StoreFuzzyEntry, hen, hsh, h]

/-- Witness for C4: a `"5m"` exact entry gets the 5-minute duration and a
`"1h"` fuzzy entry gets the 1-hour duration. -/
theorem c4_ttl_mapping_witness :
    (StoreCacheEntry stEmpty 7 ⟨"h", 10, "5m", 0, 0, "m"⟩).map
      (fun w => w.2.2) = some TTL5m ∧
    (StoreFuzzyEntry stEmpty "m" "sh" 10 "1h").map (fun w => w.2.2.2) =
      some TTL1h := by
  have h := c4_ttl_mapping stEmpty 7 ⟨"h", 10, "5m", 0, 0, "m"⟩ "m" "sh" 10 "1h"
    rfl (by decide)
  exact ⟨(h.2.1 (by decide)).1, h.2.2.1 rfl⟩

/-- **C5.** When no exact fingerprint matches any breakpoint and a fuzzy
entry with a non-negative stored token count is found for the request's
system hash, the credited read tokens never exceed
`min storedFuzzyTokens firstBreakpoint.tokenCount`. -/
theorem c5_fuzzy_read_bound (tokC tokT : String → Nat) (st : FingerprintStore)
    (digest : String → String) (req : ClaudeRequest) (model : String)
    (bp0 : CacheBreakpoint) (rest : List CacheBreakpoint) (f : Int)
    (hbps : (ExtractCacheBreakpointsWithTotal tokC tokT req).1 = bp0 :: rest)
    (hmiss : ∀ bp ∈ bp0 :: rest, bpLookupHit st digest req model bp = false)
    (hfz : GetFuzzyEntry st model (CalculateSystemHash digest req model) =
      (f, true))
    (hf : 0 ≤ f) :
    (localCacheAccounting tokC tokT st digest req model).state.read ≤
      min f bp0.tokenCount := by
  obtain ⟨hbd, _, _, _⟩ := extractBps_spec tokC tokT req
  have hbp0nn : 0 ≤ bp0.tokenCount :=
    (hbd bp0 (by rw [hbps]; exact List.mem_cons_self bp0 rest)).1
  have hscan : exactPhase (bpLookupHit st digest req model)
      (GetMinCacheableTokens model)
      (ExtractCacheBreakpointsWithTotal tokC tokT req).1 = none := by
    unfold exactPhase
    rw [hbps, lastHit_none _ _ _ (fun bp hbp => by simp [hmiss bp hbp])]
  rw [localCacheAccounting_state_eq, simPhase3_read]
  unfold simPhase1
  rw [hscan, hbps, hfz]
  simp only []
  by_cases hc : GetMinCacheableTokens model ≤ bp0.tokenCount
  · rw [if_pos ⟨trivial, hc⟩]
    have hread := (fuzzyFold_spec (GetMinCacheableTokens model) (bp0 :: rest)
      (⟨if bp0.tokenCount < f then bp0.tokenCount else f, 0, 0, 0,
        if bp0.tokenCount < f then bp0.tokenCount else f⟩ : SimState)).1
    rw [hread]
    simp only []
    by_cases hlt : bp0.tokenCount < f
    · rw [if_pos hlt]
      exact le_min (by omega) le_rfl
    · rw [if_neg hlt]
      exact le_min le_rfl (by omega)
  · rw [if_neg (by simp [hc])]
    rw [show initSimState.read = (0 : Int) from rfl]
    exact le_min hf hbp0nn

/-- Witness for C5: a fuzzy entry of 30 tokens against a 50-token first
breakpoint credits 30 = min 30 50 read tokens, within the bound. -/
theorem c5_fuzzy_read_bound_witness :
    (localCacheAccounting tokFifty tokFifty stFuzzyThirty digestD reqOneSysBp
      "m").state.read ≤
      min 30 (⟨"system", 0, 1, "5m", 50⟩ : CacheBreakpoint).tokenCount :=
  c5_fuzzy_read_bound tokFifty tokFifty stFuzzyThirty digestD reqOneSysBp "m"
    ⟨"system", 0, 1, "5m", 50⟩ [] 30 (by decide) (by decide) (by decide)
    (by decide)

end Claude

namespace Claude

/-! ### Go map model: insertion-order independence of the marshalled form -/

/-- Strict key order on map entries. -/
def keyLt (a b : String × String) : Prop := a.1 < b.1

instance : IsAntisymm (String × String) keyLt :=
  ⟨fun _ _ h1 h2 => absurd h2 (lt_asymm h1)⟩

lemma mem_mapInsert (k v : String) :
    ∀ (m : List (String × String)) (y : String × String),
      y ∈ mapInsert k v m → y = (k, v) ∨ y ∈ m := by
  intro m
  induction m with
  | nil =>
      intro y hy
      simp [mapInsert] at hy
      exact Or.inl hy
  | cons kv rest ih =>
      intro y hy
      unfold mapInsert at hy
      by_cases h1 : k = kv.1
      · rw [if_pos h1] at hy
        rcases List.mem_cons.mp hy with h | h
        · exact Or.inl h
        · exact Or.inr (List.mem_cons_of_mem kv h)
      · rw [if_neg h1] at hy
        by_cases h2 : k < kv.1
        · rw [if_pos h2] at hy
          rcases List.mem_cons.mp hy with h | h
          · exact Or.inl h
          · exact Or.inr h
        · rw [if_neg h2] at hy
          rcases List.mem_cons.mp hy with h | h
          · exact Or.inr (h ▸ List.mem_cons_self kv rest)
          · rcases ih y h with h' | h'
            · exact Or.inl h'
            · exact Or.inr (List.mem_cons_of_mem kv h')

lemma mapInsert_sorted (k v : String) :
    ∀ m : List (String × String), List.Pairwise keyLt m →
      List.Pairwise keyLt (mapInsert k v m) := by
  intro m
  induction m with
  | nil => intro _; simp [mapInsert, List.pairwise_cons]
  | cons kv rest ih =>
      intro hp
      obtain ⟨hkv, hrest⟩ := List.pairwise_cons.mp hp
      unfold mapInsert
      by_cases h1 : k = kv.1
      · rw [if_pos h1]
        refine List.pairwise_cons.mpr ⟨?_, hrest⟩
        intro y hy
        unfold keyLt
        rw [h1]
        exact hkv y hy
      · rw [if_neg h1]
        by_cases h2 : k < kv.1
        · rw [if_pos h2]
          refine List.pairwise_cons.mpr ⟨?_, hp⟩
          intro y hy
          rcases List.mem_cons.mp hy with h | h
          · unfold keyLt
            rw [h]
            exact h2
          · exact lt_trans h2 (hkv y h)
        · rw [if_neg h2]
          have hkvk : kv.1 < k := by
            rcases lt_trichotomy k kv.1 with h | h | h
            · exact absurd h h2
            · exact absurd h h1
            · exact h
          refine List.pairwise_cons.mpr ⟨?_, ih hrest⟩
          intro y hy
          rcases mem_mapInsert k v rest y hy with h | h
          · unfold keyLt
            rw [h]
            exact hkvk
          · exact hkv y h

lemma mapInsert_perm (k v : String) :
    ∀ m : List (String × String), k ∉ goMapKeys m →
      (mapInsert k v m).Perm ((k, v) :: m) := by
  intro m
  induction m with
  | nil => intro _; simp [mapInsert]
  | cons kv rest ih =>
      intro hk
      have hk1 : k ≠ kv.1 := by
        intro h
        exact hk (by simp [goMapKeys, h])
      have hkrest : k ∉ goMapKeys rest := by
        intro h
        exact hk (by simp [goMapKeys] at h ⊢; exact Or.inr h)
      unfold mapInsert
      rw [if_neg hk1]
      by_cases h2 : k < kv.1
      · rw [if_pos h2]
      · rw [if_neg h2]
        exact List.Perm.trans (List.Perm.cons kv (ih hkrest))
          (List.Perm.swap (k, v) kv rest)

lemma foldl_mapInsert_sorted :
    ∀ (l m : List (String × String)), List.Pairwise keyLt m →
      List.Pairwise keyLt
        (l.foldl (fun acc kv => mapInsert kv.1 kv.2 acc) m) := by
  intro l
  induction l with
  | nil => intro m hm; exact hm
  | cons kv rest ih =>
      intro m hm
      exact ih _ (mapInsert_sorted kv.1 kv.2 m hm)

lemma foldl_mapInsert_perm :
    ∀ (l m : List (String × String)),
      (∀ k ∈ goMapKeys l, k ∉ goMapKeys m) → (goMapKeys l).Nodup →
      (l.foldl (fun acc kv => mapInsert kv.1 kv.2 acc) m).Perm (m ++ l) := by
  intro l
  induction l with
  | nil => intro m _ _; simp
  | cons kv rest ih =>
      obtain ⟨k1, v1⟩ := kv
      intro m hdis hnd
      have hk : (k1, v1).1 ∉ goMapKeys m :=
        hdis (k1, v1).1 (by simp [goMapKeys])
      have hstep := mapInsert_perm (k1, v1).1 (k1, v1).2 m hk
      have hkeys_sub : ∀ x ∈ goMapKeys (mapInsert k1 v1 m),
          x = k1 ∨ x ∈ goMapKeys m := by
        intro x hx
        obtain ⟨y, hy, hxy⟩ := List.mem_map.mp hx
        rcases mem_mapInsert k1 v1 m y hy with h | h
        · left
          rw [← hxy, h]
        · right
          exact List.mem_map.mpr ⟨y, h, hxy⟩
      have hnd' : (goMapKeys rest).Nodup := by
        have he : goMapKeys ((k1, v1) :: rest) = k1 :: goMapKeys rest := rfl
        rw [he] at hnd
        exact (List.nodup_cons.mp hnd).2
      have hkv_not : k1 ∉ goMapKeys rest := by
        have he : goMapKeys ((k1, v1) :: rest) = k1 :: goMapKeys rest := rfl
        rw [he] at hnd
        exact (List.nodup_cons.mp hnd).1
      have hdis' : ∀ k ∈ goMapKeys rest, k ∉ goMapKeys (mapInsert k1 v1 m) := by
        intro k hkrest hkins
        rcases hkeys_sub k hkins with h | h
        · rw [h] at hkrest
          exact hkv_not hkrest
        · exact hdis k (by
            have he : goMapKeys ((k1, v1) :: rest) = k1 :: goMapKeys rest := rfl
            rw [he]
            exact List.mem_cons_of_mem k1 hkrest) h
      have e1 : ((k1, v1) :: rest).foldl (fun acc x => mapInsert x.1 x.2 acc) m
          = rest.foldl (fun acc x => mapInsert x.1 x.2 acc)
              (mapInsert k1 v1 m) := rfl
      rw [e1]
      refine List.Perm.trans (ih _ hdis' hnd') ?_
      refine List.Perm.trans (hstep.append_right rest) ?_
      exact List.perm_middle.symm

lemma buildGoMap_sorted (l : List (String × String)) :
    List.Pairwise keyLt (buildGoMap l) :=
  foldl_mapInsert_sorted l [] List.Pairwise.nil

lemma buildGoMap_perm (l : List (String × String))
    (hnd : (goMapKeys l).Nodup) : (buildGoMap l).Perm l := by
  have h := foldl_mapInsert_perm l [] (by simp [goMapKeys]) hnd
  simpa [buildGoMap] using h

lemma buildGoMap_eq_of_perm (l₁ l₂ : List (String × String))
    (hperm : l₁.Perm l₂) (hnd : (goMapKeys l₂).Nodup) :
    buildGoMap l₁ = buildGoMap l₂ := by
  have hnd₁ : (goMapKeys l₁).Nodup := (hperm.map Prod.fst).nodup_iff.mpr hnd
  have h1 : (buildGoMap l₁).Perm (buildGoMap l₂) :=
    ((buildGoMap_perm l₁ hnd₁).trans hperm).trans (buildGoMap_perm l₂ hnd).symm
  exact List.eq_of_perm_of_sorted h1 (buildGoMap_sorted l₁) (buildGoMap_sorted l₂)

lemma prefixFields_keys_nodup (p : CachePrefixData) (model : String) :
    (goMapKeys (prefixFields p model)).Nodup := by
  unfold goMapKeys prefixFields
  split_ifs <;> simp

/-- **C9.** `CalculatePrefixHash` is a pure function of the prefix content
and the model, independent of the order in which the canonical form's
fields are enumerated when the map is built: any permutation of the field
insertion sequence produces the same marshalled map, hence the same
digest. -/
theorem c9_prefix_hash_deterministic (digest : String → String)
    (p : CachePrefixData) (model : String) (l : List (String × String))
    (hperm : l.Perm (prefixFields p model)) :
    digest (marshalMapEntries (buildGoMap l)) =
      CalculatePrefixHash digest p model := by
  unfold CalculatePrefixHash
  rw [buildGoMap_eq_of_perm l (prefixFields p model) hperm
    (prefixFields_keys_nodup p model)]

/-- Witness for C9: inserting the canonical fields of a concrete prefix
in reversed order yields the same digest. -/
theorem c9_prefix_hash_deterministic_witness :
    digestD (marshalMapEntries (buildGoMap
      (prefixFields ⟨["t1"], ["s1"], ["m1"]⟩ "m").reverse)) =
      CalculatePrefixHash digestD ⟨["t1"], ["s1"], ["m1"]⟩ "m" :=
  c9_prefix_hash_deterministic digestD ⟨["t1"], ["s1"], ["m1"]⟩ "m"
    (prefixFields ⟨["t1"], ["s1"], ["m1"]⟩ "m").reverse
    (List.reverse_perm (prefixFields ⟨["t1"], ["s1"], ["m1"]⟩ "m"))

end Claude
